import Mathlib

/-!
Shallow embedding of `src/packages/metro/src/DeltaBundler/DeltaTransformer.js`.

The stateful JS class `DeltaTransformer` is embedded as pure functions with
explicit state passing.  External collaborators (the `DeltaCalculator`
graph-diff service, the bundler's minifier, the module-resolution facade, the
prelude generator, `crypto.randomBytes`) are modelled as oracle fields of an
`Externals` record: the engine consumes their results but does not implement
them, matching the spec's interface boundary (spec §6).  Fallible external
calls return `Except String`.  JS `Map`s are embedded as insertion-ordered
association lists with JS `Map.set` semantics (`mapSet`, `mapFromList`).
-/

namespace MetroDelta

/-- Embeds `DeltaEntryType` from the source: `asset | module | script | comment | require`. -/
inductive DeltaEntryType : Type where
  | asset : DeltaEntryType
  | module : DeltaEntryType
  | script : DeltaEntryType
  | comment : DeltaEntryType
  | require : DeltaEntryType
deriving DecidableEq, Repr

/-- A source-map segment tuple (`MetroSourceMapSegmentTuple`), kept opaque as a
tuple of integers: its contents are never inspected by `DeltaTransformer`. -/
abbrev SegTuple := List Int

/-- Embeds `DeltaEntry` from the source (lines 39-47). -/
structure DeltaEntry : Type where
  code : String
  id : Nat
  map : List SegTuple
  name : String
  path : String
  source : String
  type : DeltaEntryType
deriving DecidableEq, Repr

/-- Embeds `DeltaEntries = Map<number, ?DeltaEntry>`: an insertion-ordered mapping; a
`none` value is a deletion tombstone. -/
abbrev DeltaEntries := List (Nat × Option DeltaEntry)

/-- The `output` record of a `DependencyEdge` (raw code, map, source, type). -/
structure EdgeOutput : Type where
  code : String
  map : List SegTuple
  source : String
  type : DeltaEntryType
deriving DecidableEq, Repr

/-- Embeds `DependencyEdge` from `traverseDependencies`: a graph node's path, its
ordered name-to-path dependency mapping, its inverse dependencies and its raw
output. -/
structure DependencyEdge : Type where
  path : String
  dependencies : List (String × String)
  inverseDependencies : List String
  output : EdgeOutput
deriving DecidableEq, Repr

/-- Embeds `DeltaTransformResponse` from the source (lines 51-57). -/
structure DeltaTransformResponse : Type where
  id : String
  pre : DeltaEntries
  post : DeltaEntries
  delta : DeltaEntries
  reset : Bool
deriving DecidableEq, Repr

/-- Result of `DeltaCalculator.getDelta`: modified edges (in the calculator's
enumeration order), deleted paths, and the authoritative reset flag. -/
structure DeltaResult : Type where
  modified : List DependencyEdge
  deleted : List String
  reset : Bool
deriving DecidableEq, Repr

/-- The transformer options returned by `DeltaCalculator.getTransformerOptions`. -/
structure TransformOptions : Type where
  dev : Bool
  minify : Bool
deriving DecidableEq, Repr

/-- Result of `module.read(transformOptions)` for a synthetic script module. -/
structure ReadResult : Type where
  code : String
  map : List SegTuple
  source : String
deriving DecidableEq, Repr

/-- First-match association-list lookup: JS `Map.get` over an insertion-ordered
entry list with unique keys. -/
def assocLookup {α : Type} : List (String × α) → String → Option α
  | [], _ => none
  | (k, v) :: rest, key => if k = key then some v else assocLookup rest key

/-- JS `Map.has`. -/
def hasKey {α : Type} (m : List (String × α)) (k : String) : Bool :=
  (assocLookup m k).isSome

/-- JS `Map.set` on number-keyed maps: updating an existing key replaces its
value in place (keeping its original insertion position); a new key is
appended. -/
def mapSet {α : Type} (m : List (Nat × α)) (k : Nat) (v : α) : List (Nat × α) :=
  if k ∈ m.map Prod.fst then m.map (fun pr => if pr.1 = k then (k, v) else pr)
  else m ++ [(k, v)]

/-- JS `new Map(pairs)`: fold `Map.set` over the pair list. -/
def mapFromList {α : Type} (l : List (Nat × α)) : List (Nat × α) :=
  l.foldl (fun m pr => mapSet m pr.1 pr.2) []

/-- Modelled from the spec (§4.1): the Identifier Allocator produced by
`createModuleIdFactory` (`src/packages/metro/src/lib/createModuleIdFactory.js`
is not under `src/`).  `assigned` records path-to-id assignments in
first-assignment order; `next` is the next unused id; `requests` is a ghost
trace of every id request, in request order (it does not influence any id and
exists only so ordering properties can be stated). -/
structure IdFactory : Type where
  assigned : List (String × Nat)
  next : Nat
  requests : List String
deriving DecidableEq, Repr

/-- Modelled from the spec (§4.1): `id(path)` returns the existing assignment
for `path`, or assigns the next unused integer on first request. -/
def getModuleId (st : IdFactory) (path : String) : Nat × IdFactory :=
  match assocLookup st.assigned path with
  | some i => (i, { st with requests := st.requests ++ [path] })
  | none =>
      (st.next,
       { assigned := st.assigned ++ [(path, st.next)],
         next := st.next + 1,
         requests := st.requests ++ [path] })

/-- Sequentially request an id for each path in order (JS `paths.map(getModuleId)`
threading the allocator's state). -/
def mapIds (st : IdFactory) : List String → List Nat × IdFactory
  | [] => ([], st)
  | p :: rest =>
      ((getModuleId st p).1 :: (mapIds (getModuleId st p).2 rest).1,
       (mapIds (getModuleId st p).2 rest).2)

/-- The priming step of `_getDelta` (lines 241-242):
`modules.forEach(module => this._getModuleId(module.path))`. -/
def primeModuleIds (paths : List String) (st : IdFactory) : IdFactory :=
  paths.foldl (fun s p => (getModuleId s p).2) st

/-- The external oracles consumed by the engine (spec §6). -/
structure Externals : Type where
  calcDelta : Bool → Except String DeltaResult
  graph : List (String × DependencyEdge)
  transformerOptions : Except String TransformOptions
  getHasteName : String → String
  minifyModule : String → String → List SegTuple → Except String (String × List SegTuple)
  readModule : String → TransformOptions → Except String ReadResult
  polyfillPath : String → String
  preludeCode : Bool → String
  wrapRender : Nat → List Nat → Bool → String → String
  randomBytes : Nat → List Nat

/-- The bundle/main options read by `DeltaTransformer` (constructor fields). -/
structure Config : Type where
  platform : Option String
  dev : Bool
  sourceMapUrl : Option String
  runBeforeMainModule : List String
  entryFile : String
  polyfillModuleNames : List String
  getPolyfills : Option String → List String
  moduleSystem : String

/-- Modelled from the spec (§4.2): `wrapModule` (from
`Serializers/helpers/js`, not under `src/`) wraps the edge's raw code with
registration boilerplate embedding the module's own id and each dependency's
resolved id, all obtained from the allocator; the rendered string itself is an
oracle (`wrapRender`). -/
def wrapModule (ext : Externals) (edge : DependencyEdge) (dev : Bool)
    (st : IdFactory) : String × IdFactory :=
  (ext.wrapRender (getModuleId st edge.path).1
     (mapIds (getModuleId st edge.path).2 (edge.dependencies.map Prod.snd)).1
     dev edge.output.code,
   (mapIds (getModuleId st edge.path).2 (edge.dependencies.map Prod.snd)).2)

/-- Embeds `_transformModule` (lines 440-474): resolve a display name, wrap, optionally
minify, obtain the edge's own id and return the keyed entry. -/
def transformModule (ext : Externals) (opts : TransformOptions)
    (edge : DependencyEdge) (_dependencyEdges : List (String × DependencyEdge))
    (st : IdFactory) : Except String (Nat × Option DeltaEntry) × IdFactory :=
  match (if opts.minify
         then ext.minifyModule edge.path (wrapModule ext edge opts.dev st).1
                edge.output.map
         else Except.ok ((wrapModule ext edge opts.dev st).1, edge.output.map)) with
  | Except.error e => (Except.error e, (wrapModule ext edge opts.dev st).2)
  | Except.ok cm =>
      (Except.ok ((getModuleId (wrapModule ext edge opts.dev st).2 edge.path).1,
        some
          { code := cm.1,
            id := (getModuleId (wrapModule ext edge opts.dev st).2 edge.path).1,
            map := cm.2, name := ext.getHasteName edge.path,
            source := edge.output.source, path := edge.path,
            type := edge.output.type }),
       (getModuleId (wrapModule ext edge opts.dev st).2 edge.path).2)

/-- The fan-out of `_transformModules` (lines 405-417), embedded sequentially:
the pair for each module in list order, or the first failure. -/
def transformModulesList (ext : Externals) (opts : TransformOptions)
    (modules : List DependencyEdge) (dependencyEdges : List (String × DependencyEdge))
    (st : IdFactory) : Except String (List (Nat × Option DeltaEntry)) × IdFactory :=
  match modules with
  | [] => (Except.ok [], st)
  | m :: rest =>
      match transformModule ext opts m dependencyEdges st with
      | (Except.error e, st₁) => (Except.error e, st₁)
      | (Except.ok pr, st₁) =>
          match transformModulesList ext opts rest dependencyEdges st₁ with
          | (Except.error e, st₂) => (Except.error e, st₂)
          | (Except.ok prs, st₂) => (Except.ok (pr :: prs), st₂)

/-- Embeds `_transformModules`: `new Map(await Promise.all(modules.map(...)))`. -/
def transformModules (ext : Externals) (opts : TransformOptions)
    (modules : List DependencyEdge) (dependencyEdges : List (String × DependencyEdge))
    (st : IdFactory) : Except String DeltaEntries × IdFactory :=
  match transformModulesList ext opts modules dependencyEdges st with
  | (Except.error e, st₁) => (Except.error e, st₁)
  | (Except.ok prs, st₁) => (Except.ok (mapFromList prs), st₁)

/-- Embeds `_getPrelude` (lines 352-356). -/
def getPrelude (ext : Externals) (cfg : Config) (id : Nat) : DeltaEntry :=
  let code := ext.preludeCode cfg.dev
  { code := code, id := id, map := [], name := "__prelude__",
    source := code, path := "__prelude__", type := DeltaEntryType.script }

/-- Embeds `_createEdgeFromScript` (lines 419-438): read a synthetic module and fit it
into a zero-dependency edge with `script` output type. -/
def createEdgeFromScript (ext : Externals) (path : String)
    (opts : TransformOptions) : Except String DependencyEdge :=
  match ext.readModule path opts with
  | Except.error e => Except.error e
  | Except.ok r =>
      Except.ok
        { path := path, dependencies := [], inverseDependencies := [],
          output := { code := r.code, map := r.map, source := r.source,
                      type := DeltaEntryType.script } }

/-- The script names assembled by `_getPrepend` (lines 315-331): the module
system followed by every configured polyfill, in configured order. -/
def prependModuleNames (cfg : Config) : List String :=
  cfg.moduleSystem :: (cfg.getPolyfills cfg.platform ++ cfg.polyfillModuleNames)

/-- The `Promise.all` over `_createEdgeFromScript` (lines 333-337), embedded
sequentially: each name is resolved by the module-resolution facade and read;
the first failure fails the whole batch. -/
def createEdgesFromScripts (ext : Externals) (opts : TransformOptions) :
    List String → Except String (List DependencyEdge)
  | [] => Except.ok []
  | nm :: rest =>
      match createEdgeFromScript ext (ext.polyfillPath nm) opts with
      | Except.error e => Except.error e
      | Except.ok edge =>
          match createEdgesFromScripts ext opts rest with
          | Except.error e => Except.error e
          | Except.ok edges => Except.ok (edge :: edges)

/-- Embeds `_getPrepend` (lines 309-350): request the prelude's id first,
synthesize the module system plus every configured polyfill as script edges,
transform them, and return the map with the prelude entry inserted first. -/
def getPrepend (ext : Externals) (cfg : Config) (opts : TransformOptions)
    (dependencyEdges : List (String × DependencyEdge)) (st : IdFactory) :
    Except String DeltaEntries × IdFactory :=
  match createEdgesFromScripts ext opts (prependModuleNames cfg) with
  | Except.error e => (Except.error e, (getModuleId st "__prelude__").2)
  | Except.ok edges =>
      match transformModules ext opts edges dependencyEdges
          (getModuleId st "__prelude__").2 with
      | (Except.error e, st₁) => (Except.error e, st₁)
      | (Except.ok transformed, st₁) =>
          (Except.ok (mapFromList
            (((getModuleId st "__prelude__").1,
              some (getPrelude ext cfg (getModuleId st "__prelude__").1)) ::
              transformed)), st₁)

/-- The `require(<id>);` entries built by `_getAppend` (lines 367-384). -/
def requireEntry (moduleId : Nat) : DeltaEntry :=
  let code := "require(" ++ toString moduleId ++ ");"
  let name := "require-" ++ toString moduleId
  { code := code, id := moduleId, map := [], name := name,
    source := code, path := name ++ ".js", type := DeltaEntryType.require }

/-- The `//# sourceMappingURL=` comment entry of `_getAppend` (lines 387-400). -/
def sourcemapEntry (url : String) (id : Nat) : DeltaEntry :=
  let code := "//# sourceMappingURL=" ++ url
  { code := code, id := id, map := [], name := "sourcemap.js",
    source := code, path := "/sourcemap.js", type := DeltaEntryType.comment }

/-- The path list of `_getAppend` (lines 362-365): the `runBeforeMainModule`
names plus the entry file, filtered to those present in the snapshot. -/
def appendPaths (cfg : Config)
    (dependencyEdges : List (String × DependencyEdge)) : List String :=
  (cfg.runBeforeMainModule ++ [cfg.entryFile]).filter
    (fun p => hasKey dependencyEdges p)

/-- The require-entry map built by `_getAppend` before the source-map entry. -/
def appendRequires (cfg : Config)
    (dependencyEdges : List (String × DependencyEdge)) (st : IdFactory) :
    DeltaEntries :=
  mapFromList ((mapIds st (appendPaths cfg dependencyEdges)).1.map
    (fun i => (i, some (requireEntry i))))

/-- Embeds `_getAppend` (lines 358-403): the present `runBeforeMainModule`
names plus the entry file become require entries, then the optional source-map
comment entry is set. -/
def getAppend (cfg : Config) (dependencyEdges : List (String × DependencyEdge))
    (st : IdFactory) : DeltaEntries × IdFactory :=
  match cfg.sourceMapUrl with
  | some url =>
      (mapSet (appendRequires cfg dependencyEdges st)
         (getModuleId (mapIds st (appendPaths cfg dependencyEdges)).2
           "/sourcemap.js").1
         (some (sourcemapEntry url
           (getModuleId (mapIds st (appendPaths cfg dependencyEdges)).2
             "/sourcemap.js").1)),
       (getModuleId (mapIds st (appendPaths cfg dependencyEdges)).2
         "/sourcemap.js").2)
  | none =>
      (appendRequires cfg dependencyEdges st,
       (mapIds st (appendPaths cfg dependencyEdges)).2)

/-- The tombstone pass of `_getDelta` (lines 251-253):
`deleted.forEach(id => modifiedDelta.set(this._getModuleId(id), null))`. -/
def setTombstones (deleted : List String) (m : DeltaEntries) (st : IdFactory) :
    DeltaEntries × IdFactory :=
  deleted.foldl
    (fun acc p =>
      let r := getModuleId acc.2 p
      (mapSet acc.1 r.1 none, r.2))
    (m, st)

/-- The number of random bytes requested when minting a sequence id
(line 262: `crypto.randomBytes(8)`). -/
def sequenceIdByteLen : Nat := 8

/-- Lower-case hex digit. -/
def hexDigit (n : Nat) : Char :=
  if n < 10 then Char.ofNat (48 + n) else Char.ofNat (87 + n)

/-- A byte rendered as two lower-case hex characters (`Buffer.toString('hex')`). -/
def byteToHex (b : Nat) : String :=
  String.mk [hexDigit (b % 256 / 16), hexDigit (b % 16)]

/-- Embeds `Buffer.toString('hex')` over a byte list. -/
def bytesToHex (bs : List Nat) : String :=
  String.join (bs.map byteToHex)

/-- Embeds `_getDelta` (lines 220-271): diff, prepend (on reset), id priming,
transformation of the modified edges, tombstones, append (on reset), and the
minting of a fresh sequence id.  Returns the response (or the first failure)
together with the updated allocator and the updated `_lastSequenceId`; the
latter is only assigned on the success path, after every fallible step. -/
def getDeltaInner (ext : Externals) (cfg : Config) (resetDelta : Bool)
    (idf : IdFactory) (last : Option String) :
    Except String DeltaTransformResponse × IdFactory × Option String :=
  match ext.calcDelta resetDelta with
  | Except.error e => (Except.error e, idf, last)
  | Except.ok dr =>
      match ext.transformerOptions with
      | Except.error e => (Except.error e, idf, last)
      | Except.ok opts =>
          match (if dr.reset then getPrepend ext cfg opts ext.graph idf
                 else (Except.ok [], idf)) with
          | (Except.error e, idf₁) => (Except.error e, idf₁, last)
          | (Except.ok prependSources, idf₁) =>
              let modules := dr.modified
              let idf₂ := primeModuleIds (modules.map DependencyEdge.path) idf₁
              match transformModules ext opts modules ext.graph idf₂ with
              | (Except.error e, idf₃) => (Except.error e, idf₃, last)
              | (Except.ok modifiedDelta₀, idf₃) =>
                  let tomb := setTombstones dr.deleted modifiedDelta₀ idf₃
                  let app :=
                    if dr.reset then getAppend cfg ext.graph tomb.2
                    else ([], tomb.2)
                  let newId := bytesToHex (ext.randomBytes sequenceIdByteLen)
                  (Except.ok
                    { id := newId, pre := prependSources, post := app.1,
                      delta := tomb.1, reset := dr.reset },
                   app.2, some newId)

/-- JS truthiness of the `_lastSequenceId` field (`!!this._lastSequenceId`):
`undefined`/`null` and the empty string are falsy. -/
def jsTruthyStr : Option String → Bool
  | none => false
  | some s => !(s == "")

/-- The reset decision of `getDelta` (line 198):
`!!this._lastSequenceId && sequenceId !== this._lastSequenceId`. -/
def resetRequested (last sequenceId : Option String) : Bool :=
  jsTruthyStr last && !(sequenceId == last)

/-- The per-instance mutable state of `DeltaTransformer` observed by `getDelta`:
the allocator, `_lastSequenceId`, and whether `_currentBuildPromise` is set. -/
structure EngineState : Type where
  idFactory : IdFactory
  lastSequenceId : Option String
  currentBuild : Bool
deriving DecidableEq, Repr

deriving instance DecidableEq for Except

/-- The observable outcome of one `getDelta` call: its result, the instance
state after the call (and after the previous build's `finally`, if any), and
whether this caller's own `_getDelta` computation ran at all. -/
structure CallOutcome : Type where
  result : Except String DeltaTransformResponse
  state : EngineState
  ranOwnBuild : Bool
deriving DecidableEq, Repr

/-- Embeds `getDelta` (lines 195-218).  `pending` is the eventual outcome of the
`_currentBuildPromise` found in flight (if any): the caller first awaits it.
Awaiting a rejected promise at line 204 rethrows outside any try/catch, so the
caller's own computation never starts in that case; the first caller's
`finally` still clears the gate.  Otherwise the caller installs and awaits its
own `_getDelta`, and the `finally` at line 214 clears the gate whatever the
outcome. -/
def getDelta (ext : Externals) (cfg : Config) (sequenceId : Option String)
    (pending : Option (Except String DeltaTransformResponse))
    (st : EngineState) : CallOutcome :=
  let reset := resetRequested st.lastSequenceId sequenceId
  match pending with
  | some (Except.error e) =>
      { result := Except.error e,
        state := { st with currentBuild := false },
        ranOwnBuild := false }
  | _ =>
      let r := getDeltaInner ext cfg reset st.idFactory st.lastSequenceId
      { result := r.1,
        state := { idFactory := r.2.1, lastSequenceId := r.2.2,
                   currentBuild := false },
        ranOwnBuild := true }

/-- The outcome of the non-rejected branch of `getDelta`: the caller runs its
own `_getDelta` and the `finally` clears the gate. -/
def ownBuildOutcome (ext : Externals) (cfg : Config)
    (sequenceId : Option String) (st : EngineState) : CallOutcome :=
  { result :=
      (getDeltaInner ext cfg (resetRequested st.lastSequenceId sequenceId)
          st.idFactory st.lastSequenceId).1,
    state :=
      { idFactory :=
          (getDeltaInner ext cfg (resetRequested st.lastSequenceId sequenceId)
              st.idFactory st.lastSequenceId).2.1,
        lastSequenceId :=
          (getDeltaInner ext cfg (resetRequested st.lastSequenceId sequenceId)
              st.idFactory st.lastSequenceId).2.2,
        currentBuild := false },
    ranOwnBuild := true }

/-- Embeds `_getDeps` (lines 285-307): depth-first collection of every path reachable
from `path` whose edge is present in the snapshot.  The JS recursion terminates
because every productive call adds a snapshot key to the accumulator; `fuel`
bounds the recursion depth and is instantiated large enough for the fuelled
function to agree with the JS one (`getDependencies` below). -/
def getDeps (edges : List (String × DependencyEdge)) :
    Nat → String → List String → List String
  | 0, _, deps => deps
  | fuel + 1, path, deps =>
      if path ∈ deps then deps
      else
        match assocLookup edges path with
        | none => deps
        | some edge =>
            (edge.dependencies.map Prod.snd).foldl
              (fun d q => getDeps edges fuel q d) (deps ++ [path])

/-- Embeds `_getDependencies` (lines 273-283): run `_getDeps` from an empty
accumulator and remove the starting path from the result. -/
def getDependencies (edges : List (String × DependencyEdge)) (path : String) :
    List String :=
  (getDeps edges (edges.length + 1) path []).erase path

/-- One dependency step of the snapshot: `b` is a target of `a`'s edge. -/
def stepTo (edges : List (String × DependencyEdge)) (a b : String) : Prop :=
  ∃ e, assocLookup edges a = some e ∧ b ∈ e.dependencies.map Prod.snd

/-- Decidable closure check: every dependency target of every edge is itself a
key of the snapshot. -/
def closedGraphB (edges : List (String × DependencyEdge)) : Bool :=
  edges.all (fun pr => pr.2.dependencies.all (fun d => hasKey edges d.2))

/-- Well-formedness of the allocator: keys are unique, assigned ids are unique,
and every assigned id is below `next`. -/
def IdFactory.WF (st : IdFactory) : Prop :=
  (st.assigned.map Prod.fst).Nodup ∧ (st.assigned.map Prod.snd).Nodup ∧
    ∀ pr ∈ st.assigned, pr.2 < st.next

/-- An edge whose own path and whose dependency targets all already have
assigned ids. -/
def edgeCovered (st : IdFactory) (e : DependencyEdge) : Bool :=
  (assocLookup st.assigned e.path).isSome &&
    (e.dependencies.map Prod.snd).all (fun d => (assocLookup st.assigned d).isSome)

/-- A keyed entry is consistent: a non-tombstone value carries the id it is
keyed under. -/
def PairOk (pr : Nat × Option DeltaEntry) : Prop :=
  ∀ e, pr.2 = some e → e.id = pr.1

/-- State evolution of the allocator under any sequence of id requests:
existing assignments survive, well-formedness survives, `next` never
decreases. -/
def Evolves (s t : IdFactory) : Prop :=
  (∀ p i, assocLookup s.assigned p = some i → assocLookup t.assigned p = some i) ∧
    (s.WF → t.WF) ∧ s.next ≤ t.next ∧
    ∃ tail, t.requests = s.requests ++ tail

/-- The snapshot keys still missing from a traversal accumulator; its length is
the termination measure of `getDeps`. -/
def remainingKeys (edges : List (String × DependencyEdge)) (deps : List String) :
    List String :=
  ((edges.map Prod.fst).dedup).filter (fun k => k ∉ deps)

/-- The induction invariant of `getDeps` at a given fuel: with enough fuel left
the traversal (1) keeps its accumulator, (2) only adds snapshot keys reachable
from the start, (3) preserves freedom from duplicates, (4) visits the start
when it is a snapshot key, and (5) is closed under dependency steps out of the
newly added paths. -/
def GetDepsSpec (edges : List (String × DependencyEdge)) (fuel : Nat) : Prop :=
  ∀ deps path, (remainingKeys edges deps).length < fuel →
    (∀ x ∈ deps, x ∈ getDeps edges fuel path deps) ∧
    (∀ x ∈ getDeps edges fuel path deps, x ∈ deps ∨
      (x ∈ edges.map Prod.fst ∧
        Relation.ReflTransGen (stepTo edges) path x)) ∧
    (deps.Nodup → (getDeps edges fuel path deps).Nodup) ∧
    (path ∈ edges.map Prod.fst → path ∈ getDeps edges fuel path deps) ∧
    (∀ z ∈ getDeps edges fuel path deps, z ∉ deps →
      ∀ t, stepTo edges z t → t ∈ edges.map Prod.fst →
        t ∈ getDeps edges fuel path deps)

/-- Test fixture: a leaf module. -/
def testEdgeB : DependencyEdge :=
  { path := "/b.js", dependencies := [], inverseDependencies := ["/a.js"],
    output := { code := "bcode", map := [], source := "bsrc",
                type := DeltaEntryType.module } }

/-- Test fixture: the entry module, depending on the leaf. -/
def testEdgeA : DependencyEdge :=
  { path := "/a.js", dependencies := [("b", "/b.js")], inverseDependencies := [],
    output := { code := "acode", map := [], source := "asrc",
                type := DeltaEntryType.module } }

/-- Test fixture: a two-module graph snapshot. -/
def testGraph : List (String × DependencyEdge) :=
  [("/a.js", testEdgeA), ("/b.js", testEdgeB)]

/-- Test fixture: concrete external oracles on which every call succeeds and
the diff service forces a reset. -/
def testExt : Externals :=
  { calcDelta := fun _ =>
      Except.ok { modified := [testEdgeA, testEdgeB], deleted := ["/old.js"],
                  reset := true },
    graph := testGraph,
    transformerOptions := Except.ok { dev := true, minify := false },
    getHasteName := fun p => p,
    minifyModule := fun _ c m => Except.ok (c, m),
    readModule := fun p _ => Except.ok { code := "poly:" ++ p, map := [], source := p },
    polyfillPath := fun n => n,
    preludeCode := fun _ => "preludecode",
    wrapRender := fun _ _ _ c => c,
    randomBytes := fun n => List.range n }

/-- Test fixture: the bundle configuration. -/
def testCfg : Config :=
  { platform := none, dev := true, sourceMapUrl := some "http://x/map",
    runBeforeMainModule := ["/b.js", "/missing.js"], entryFile := "/a.js",
    polyfillModuleNames := ["/poly1.js"],
    getPolyfills := fun _ => ["/poly0.js"],
    moduleSystem := "/metro/require.js" }

/-- Test fixture: a fresh isolated allocator. -/
def testIdf : IdFactory := { assigned := [], next := 0, requests := [] }

/-- Test fixture: engine state before any build. -/
def testState : EngineState :=
  { idFactory := testIdf, lastSequenceId := none, currentBuild := false }

/-- Fallback response used only to project a successful test result. -/
def emptyResp : DeltaTransformResponse :=
  { id := "", pre := [], post := [], delta := [], reset := false }

/-- Test fixture: a full successful `getDelta` call on the fixtures above. -/
def testRun : CallOutcome := getDelta testExt testCfg none none testState

/-- The response of `testRun` (it succeeds, so the fallback is never used). -/
def testResp : DeltaTransformResponse :=
  match testRun.result with
  | Except.ok r => r
  | Except.error _ => emptyResp

/-- Test fixture: transformer options for direct segment-assembler calls. -/
def testOpts : TransformOptions := { dev := true, minify := false }

/-- Test fixture: a direct `_getPrepend` run. -/
def testPrependRun : Except String DeltaEntries × IdFactory :=
  getPrepend testExt testCfg testOpts testGraph testIdf

/-- The prepend map of `testPrependRun` (it succeeds, fallback never used). -/
def testPre : DeltaEntries :=
  match testPrependRun.1 with
  | Except.ok p => p
  | Except.error _ => []

/-- Test fixture: externals whose graph-diff request always fails. -/
def failExt : Externals :=
  { testExt with calcDelta := fun _ => Except.error "diff failure" }

/-- Test fixture: a graph node with exactly one dependency, for the cyclic
traversal witness. -/
def cycEdge (p q : String) : DependencyEdge :=
  { path := p, dependencies := [("d", q)], inverseDependencies := [],
    output := { code := "", map := [], source := "",
                type := DeltaEntryType.module } }

/-- Test fixture: a two-node cyclic snapshot. -/
def cycGraph : List (String × DependencyEdge) :=
  [("a", cycEdge "a" "b"), ("b", cycEdge "b" "a")]

lemma assocLookup_eq_none {α : Type} {l : List (String × α)} {key : String} :
    assocLookup l key = none ↔ key ∉ l.map Prod.fst := by
  induction l with
  | nil => simp [assocLookup]
  | cons hd tl ih =>
      obtain ⟨k, v⟩ := hd
      by_cases h : k = key
      · subst h; simp [assocLookup]
      · simp [assocLookup, h, ih, Ne.symm h]

lemma assocLookup_mem {α : Type} {l : List (String × α)} {key : String} {v : α}
    (h : assocLookup l key = some v) : (key, v) ∈ l := by
  induction l with
  | nil => simp [assocLookup] at h
  | cons hd tl ih =>
      obtain ⟨k, w⟩ := hd
      by_cases hk : k = key
      · subst hk
        simp [assocLookup] at h
        subst h
        exact List.mem_cons_self _ _
      · simp [assocLookup, hk] at h
        exact List.mem_cons_of_mem _ (ih h)

lemma assocLookup_append_some {α : Type} {l l₂ : List (String × α)} {key : String}
    {v : α} (h : assocLookup l key = some v) :
    assocLookup (l ++ l₂) key = some v := by
  induction l with
  | nil => simp [assocLookup] at h
  | cons hd tl ih =>
      obtain ⟨k, w⟩ := hd
      by_cases hk : k = key
      · subst hk; simp_all [assocLookup]
      · simp_all [assocLookup, hk]

lemma assocLookup_append_none {α : Type} {l : List (String × α)}
    (l₂ : List (String × α)) {key : String} (h : assocLookup l key = none) :
    assocLookup (l ++ l₂) key = assocLookup l₂ key := by
  induction l with
  | nil => simp [assocLookup]
  | cons hd tl ih =>
      obtain ⟨k, w⟩ := hd
      by_cases hk : k = key
      · subst hk; simp [assocLookup] at h
      · simp_all [assocLookup, hk]

lemma getModuleId_of_some {st : IdFactory} {p : String} {i : Nat}
    (h : assocLookup st.assigned p = some i) :
    getModuleId st p = (i, { st with requests := st.requests ++ [p] }) := by
  unfold getModuleId; rw [h]

lemma getModuleId_of_none {st : IdFactory} {p : String}
    (h : assocLookup st.assigned p = none) :
    getModuleId st p =
      (st.next,
       { assigned := st.assigned ++ [(p, st.next)], next := st.next + 1,
         requests := st.requests ++ [p] }) := by
  unfold getModuleId; rw [h]

lemma getModuleId_requests (st : IdFactory) (p : String) :
    ((getModuleId st p).2).requests = st.requests ++ [p] := by
  cases h : assocLookup st.assigned p with
  | some i => rw [getModuleId_of_some h]
  | none => rw [getModuleId_of_none h]

lemma getModuleId_lookup_self (st : IdFactory) (p : String) :
    assocLookup ((getModuleId st p).2).assigned p = some (getModuleId st p).1 := by
  cases h : assocLookup st.assigned p with
  | some i => rw [getModuleId_of_some h]; exact h
  | none =>
      rw [getModuleId_of_none h]
      simp only
      rw [assocLookup_append_none _ h]
      simp [assocLookup]

lemma getModuleId_mono {st : IdFactory} {q : String} {j : Nat} (p : String)
    (h : assocLookup st.assigned q = some j) :
    assocLookup ((getModuleId st p).2).assigned q = some j := by
  cases hp : assocLookup st.assigned p with
  | some i => rw [getModuleId_of_some hp]; exact h
  | none => rw [getModuleId_of_none hp]; exact assocLookup_append_some h

lemma getModuleId_next_le (st : IdFactory) (p : String) :
    st.next ≤ ((getModuleId st p).2).next := by
  cases hp : assocLookup st.assigned p with
  | some i => rw [getModuleId_of_some hp]
  | none => rw [getModuleId_of_none hp]; exact Nat.le_succ _

lemma getModuleId_wf {st : IdFactory} (p : String) (h : st.WF) :
    ((getModuleId st p).2).WF := by
  cases hp : assocLookup st.assigned p with
  | some i => rw [getModuleId_of_some hp]; exact h
  | none =>
      rw [getModuleId_of_none hp]
      obtain ⟨hk, hv, hb⟩ := h
      refine ⟨?_, ?_, ?_⟩
      · simp only [List.map_append, List.map_cons, List.map_nil]
        rw [List.nodup_append]
        refine ⟨hk, List.nodup_singleton _, ?_⟩
        intro a ha hb'
        simp at hb'
        subst hb'
        exact assocLookup_eq_none.mp hp ha
      · simp only [List.map_append, List.map_cons, List.map_nil]
        rw [List.nodup_append]
        refine ⟨hv, List.nodup_singleton _, ?_⟩
        intro a ha hb'
        simp at hb'
        subst hb'
        obtain ⟨pr, hpr, hpr2⟩ := List.mem_map.mp ha
        exact absurd (hb pr hpr) (by simp [hpr2])
      · intro pr hpr
        rcases List.mem_append.mp hpr with h1 | h2
        · exact Nat.lt_succ_of_lt (hb pr h1)
        · simp at h2
          simp [h2]

lemma snd_nodup_inj {l : List (String × Nat)} (h : (l.map Prod.snd).Nodup)
    {p q : String} {i : Nat} (hp : (p, i) ∈ l) (hq : (q, i) ∈ l) : p = q := by
  induction l with
  | nil => cases hp
  | cons hd tl ih =>
      rw [List.map_cons, List.nodup_cons] at h
      rcases List.mem_cons.mp hp with hp1 | hp2 <;>
        rcases List.mem_cons.mp hq with hq1 | hq2
      · rw [← hp1] at hq1; exact (congrArg Prod.fst hq1.symm)
      · exfalso
        apply h.1
        rw [← hp1]
        exact List.mem_map.mpr ⟨(q, i), hq2, rfl⟩
      · exfalso
        apply h.1
        rw [← hq1]
        exact List.mem_map.mpr ⟨(p, i), hp2, rfl⟩
      · exact ih h.2 hp2 hq2

lemma wf_lookup_inj {st : IdFactory} (h : st.WF) {p q : String} {i : Nat}
    (hp : assocLookup st.assigned p = some i)
    (hq : assocLookup st.assigned q = some i) : p = q :=
  snd_nodup_inj h.2.1 (assocLookup_mem hp) (assocLookup_mem hq)

lemma wf_lookup_lt {st : IdFactory} (h : st.WF) {p : String} {i : Nat}
    (hp : assocLookup st.assigned p = some i) : i < st.next :=
  h.2.2 _ (assocLookup_mem hp)

lemma evolves_refl (st : IdFactory) : Evolves st st :=
  ⟨fun _ _ h => h, id, le_refl _, [], by simp⟩

lemma evolves_trans {a b c : IdFactory} (h1 : Evolves a b) (h2 : Evolves b c) :
    Evolves a c := by
  obtain ⟨t1, ht1⟩ := h1.2.2.2
  obtain ⟨t2, ht2⟩ := h2.2.2.2
  exact ⟨fun p i h => h2.1 p i (h1.1 p i h), fun w => h2.2.1 (h1.2.1 w),
    le_trans h1.2.2.1 h2.2.2.1, t1 ++ t2, by rw [ht2, ht1, List.append_assoc]⟩

lemma getModuleId_evolves (st : IdFactory) (p : String) :
    Evolves st ((getModuleId st p).2) :=
  ⟨fun _ _ h => getModuleId_mono p h, getModuleId_wf p, getModuleId_next_le st p,
   [p], getModuleId_requests st p⟩

lemma mapIds_evolves (st : IdFactory) (paths : List String) :
    Evolves st (mapIds st paths).2 := by
  induction paths generalizing st with
  | nil => exact evolves_refl st
  | cons p rest ih =>
      exact evolves_trans (getModuleId_evolves st p) (ih (getModuleId st p).2)

lemma mapIds_lookup {st : IdFactory} {paths : List String} :
    ∀ x ∈ (mapIds st paths).1,
      ∃ q ∈ paths, assocLookup (mapIds st paths).2.assigned q = some x := by
  induction paths generalizing st with
  | nil => simp [mapIds]
  | cons p rest ih =>
      intro x hx
      simp only [mapIds] at hx ⊢
      rcases List.mem_cons.mp hx with h1 | h2
      · subst h1
        exact ⟨p, List.mem_cons_self _ _,
          (mapIds_evolves (getModuleId st p).2 rest).1 _ _
            (getModuleId_lookup_self st p)⟩
      · obtain ⟨q, hq, hlq⟩ := @ih ((getModuleId st p).2) x h2
        exact ⟨q, List.mem_cons_of_mem _ hq, hlq⟩

lemma mapIds_nodup {st : IdFactory} {paths : List String} (hwf : st.WF)
    (hnd : paths.Nodup) : (mapIds st paths).1.Nodup := by
  induction paths generalizing st with
  | nil => simp [mapIds]
  | cons p rest ih =>
      rw [List.nodup_cons] at hnd
      simp only [mapIds, List.nodup_cons]
      refine ⟨?_, ih (getModuleId_wf p hwf) hnd.2⟩
      intro hmem
      obtain ⟨q, hq, hlq⟩ := mapIds_lookup _ hmem
      have hp : assocLookup (mapIds (getModuleId st p).2 rest).2.assigned p =
          some (getModuleId st p).1 :=
        (mapIds_evolves (getModuleId st p).2 rest).1 _ _
          (getModuleId_lookup_self st p)
      have hwf' : (mapIds (getModuleId st p).2 rest).2.WF :=
        (mapIds_evolves (getModuleId st p).2 rest).2.1 (getModuleId_wf p hwf)
      exact hnd.1 ((wf_lookup_inj hwf' hlq hp) ▸ hq)

lemma getModuleId_covered {st : IdFactory} {p : String}
    (h : (assocLookup st.assigned p).isSome = true) :
    (getModuleId st p).1 = (assocLookup st.assigned p).getD 0 ∧
      ((getModuleId st p).2).assigned = st.assigned ∧
      ((getModuleId st p).2).next = st.next := by
  obtain ⟨i, hi⟩ := Option.isSome_iff_exists.mp h
  rw [getModuleId_of_some hi, hi]
  simp

lemma mapIds_covered {st : IdFactory} {paths : List String}
    (h : ∀ p ∈ paths, (assocLookup st.assigned p).isSome = true) :
    (mapIds st paths).1 = paths.map (fun p => (assocLookup st.assigned p).getD 0) ∧
      (mapIds st paths).2.assigned = st.assigned ∧
      (mapIds st paths).2.next = st.next := by
  induction paths generalizing st with
  | nil => simp [mapIds]
  | cons p rest ih =>
      have hp := h p (List.mem_cons_self _ _)
      obtain ⟨h1, h2, h3⟩ := getModuleId_covered hp
      have hrest : ∀ q ∈ rest,
          (assocLookup ((getModuleId st p).2).assigned q).isSome = true := by
        rw [h2]
        exact fun q hq => h q (List.mem_cons_of_mem _ hq)
      obtain ⟨r1, r2, r3⟩ := ih hrest
      rw [h2] at r1 r2
      rw [h3] at r3
      simp only [mapIds, List.map_cons]
      exact ⟨by rw [h1, r1], r2, r3⟩

lemma primeModuleIds_cons (p : String) (rest : List String) (st : IdFactory) :
    primeModuleIds (p :: rest) st = primeModuleIds rest ((getModuleId st p).2) :=
  rfl

lemma primeModuleIds_evolves (paths : List String) (st : IdFactory) :
    Evolves st (primeModuleIds paths st) := by
  induction paths generalizing st with
  | nil => exact evolves_refl st
  | cons p rest ih =>
      rw [primeModuleIds_cons]
      exact evolves_trans (getModuleId_evolves st p) (ih _)

lemma primeModuleIds_requests (paths : List String) (st : IdFactory) :
    (primeModuleIds paths st).requests = st.requests ++ paths := by
  induction paths generalizing st with
  | nil => simp [primeModuleIds]
  | cons p rest ih =>
      rw [primeModuleIds_cons, ih, getModuleId_requests]
      simp

lemma primeModuleIds_covers {paths : List String} {st : IdFactory} :
    ∀ p ∈ paths, (assocLookup (primeModuleIds paths st).assigned p).isSome = true := by
  induction paths generalizing st with
  | nil => simp
  | cons q rest ih =>
      intro p hp
      rw [primeModuleIds_cons]
      rcases List.mem_cons.mp hp with h1 | h2
      · subst h1
        rw [Option.isSome_iff_exists]
        exact ⟨_, (primeModuleIds_evolves rest _).1 _ _
          (getModuleId_lookup_self st p)⟩
      · exact ih p h2

lemma mapSet_head_key {α : Type} {m : List (Nat × α)} {k₀ : Nat}
    (h : (m.head?).map Prod.fst = some k₀) (k : Nat) (v : α) :
    ((mapSet m k v).head?).map Prod.fst = some k₀ := by
  cases m with
  | nil => simp at h
  | cons hd tl =>
      simp only [List.head?_cons, Option.map_some'] at h
      unfold mapSet
      by_cases hk : k ∈ ((hd :: tl).map Prod.fst)
      · rw [if_pos hk]
        simp only [List.map_cons, List.head?_cons, Option.map_some']
        by_cases h2 : hd.1 = k
        · simp [h2, ← h]
        · simp [h2, h]
      · rw [if_neg hk]
        simp [h]

lemma mapSet_head_of_ne {α : Type} {m : List (Nat × α)} {k₀ : Nat} {v₀ : α}
    (h : m.head? = some (k₀, v₀)) {k : Nat} (hk : k ≠ k₀) (v : α) :
    (mapSet m k v).head? = some (k₀, v₀) := by
  cases m with
  | nil => simp at h
  | cons hd tl =>
      simp only [List.head?_cons, Option.some_inj] at h
      subst h
      unfold mapSet
      by_cases hm : k ∈ (((k₀, v₀) :: tl).map Prod.fst)
      · rw [if_pos hm]
        simp [Ne.symm hk]
      · rw [if_neg hm]
        simp

lemma foldl_mapSet_head_key {α : Type} {l : List (Nat × α)} {m : List (Nat × α)}
    {k₀ : Nat} (h : (m.head?).map Prod.fst = some k₀) :
    ((l.foldl (fun acc pr => mapSet acc pr.1 pr.2) m).head?).map Prod.fst =
      some k₀ := by
  induction l generalizing m with
  | nil => exact h
  | cons pr rest ih => exact ih (mapSet_head_key h pr.1 pr.2)

lemma mapFromList_cons_head_key {α : Type} (k : Nat) (v : α)
    (l : List (Nat × α)) :
    ((mapFromList ((k, v) :: l)).head?).map Prod.fst = some k := by
  unfold mapFromList
  rw [List.foldl_cons]
  apply foldl_mapSet_head_key
  simp [mapSet]

lemma foldl_mapSet_head_of_ne {α : Type} {l : List (Nat × α)}
    {m : List (Nat × α)} {k₀ : Nat} {v₀ : α} (h : m.head? = some (k₀, v₀))
    (hl : ∀ pr ∈ l, pr.1 ≠ k₀) :
    (l.foldl (fun acc pr => mapSet acc pr.1 pr.2) m).head? = some (k₀, v₀) := by
  induction l generalizing m with
  | nil => exact h
  | cons pr rest ih =>
      rw [List.foldl_cons]
      exact ih (mapSet_head_of_ne h (hl pr (List.mem_cons_self _ _)) pr.2)
        (fun q hq => hl q (List.mem_cons_of_mem _ hq))

lemma mapFromList_cons_head {α : Type} (k : Nat) (v : α) (l : List (Nat × α))
    (hl : ∀ pr ∈ l, pr.1 ≠ k) :
    (mapFromList ((k, v) :: l)).head? = some (k, v) := by
  unfold mapFromList
  rw [List.foldl_cons]
  apply foldl_mapSet_head_of_ne _ hl
  simp [mapSet]

lemma mapSet_of_not_mem {α : Type} {m : List (Nat × α)} {k : Nat}
    (h : k ∉ m.map Prod.fst) (v : α) : mapSet m k v = m ++ [(k, v)] := by
  unfold mapSet
  rw [if_neg h]

lemma foldl_mapSet_self {α : Type} {l m : List (Nat × α)}
    (h : (m.map Prod.fst ++ l.map Prod.fst).Nodup) :
    l.foldl (fun acc pr => mapSet acc pr.1 pr.2) m = m ++ l := by
  induction l generalizing m with
  | nil => simp
  | cons pr rest ih =>
      rw [List.foldl_cons]
      have hk : pr.1 ∉ m.map Prod.fst := by
        intro hmem
        rw [List.nodup_append] at h
        exact h.2.2 hmem (by simp)
      rw [mapSet_of_not_mem hk]
      rw [ih (by simpa [List.append_assoc] using h)]
      simp

lemma mapFromList_self {α : Type} {l : List (Nat × α)}
    (h : (l.map Prod.fst).Nodup) : mapFromList l = l := by
  have := foldl_mapSet_self (m := ([] : List (Nat × α))) (l := l) (by simpa)
  simpa [mapFromList] using this

lemma mapSet_pairOk {m : DeltaEntries} {k : Nat} {v : Option DeltaEntry}
    (hm : ∀ pr ∈ m, PairOk pr) (hv : PairOk (k, v)) :
    ∀ pr ∈ mapSet m k v, PairOk pr := by
  intro pr hpr
  unfold mapSet at hpr
  by_cases hk : k ∈ m.map Prod.fst
  · rw [if_pos hk] at hpr
    obtain ⟨pr₀, hpr₀, heq⟩ := List.mem_map.mp hpr
    by_cases h2 : pr₀.1 = k
    · rw [if_pos h2] at heq
      exact heq ▸ hv
    · rw [if_neg h2] at heq
      exact heq ▸ hm pr₀ hpr₀
  · rw [if_neg hk] at hpr
    rcases List.mem_append.mp hpr with h1 | h2
    · exact hm pr h1
    · simp at h2
      rw [h2]
      exact hv

lemma foldl_mapSet_pairOk {l : DeltaEntries} {m : DeltaEntries}
    (hm : ∀ pr ∈ m, PairOk pr) (hl : ∀ pr ∈ l, PairOk pr) :
    ∀ pr ∈ l.foldl (fun acc pr => mapSet acc pr.1 pr.2) m, PairOk pr := by
  induction l generalizing m with
  | nil => exact hm
  | cons pr₀ rest ih =>
      rw [List.foldl_cons]
      exact ih (mapSet_pairOk hm (by simpa using hl pr₀ (List.mem_cons_self _ _)))
        (fun q hq => hl q (List.mem_cons_of_mem _ hq))

lemma mapFromList_pairOk {l : DeltaEntries} (hl : ∀ pr ∈ l, PairOk pr) :
    ∀ pr ∈ mapFromList l, PairOk pr := by
  unfold mapFromList
  exact foldl_mapSet_pairOk (by simp) hl

lemma edgeCovered_congr {s t : IdFactory} (h : s.assigned = t.assigned)
    (e : DependencyEdge) : edgeCovered s e = edgeCovered t e := by
  unfold edgeCovered
  rw [h]

lemma wrapModule_evolves (ext : Externals) (edge : DependencyEdge) (dev : Bool)
    (st : IdFactory) : Evolves st (wrapModule ext edge dev st).2 :=
  evolves_trans (getModuleId_evolves st edge.path)
    (mapIds_evolves (getModuleId st edge.path).2 (edge.dependencies.map Prod.snd))

lemma wrapModule_covered {st : IdFactory} {edge : DependencyEdge}
    (ext : Externals) (dev : Bool) (h : edgeCovered st edge = true) :
    (wrapModule ext edge dev st).2.assigned = st.assigned ∧
      (wrapModule ext edge dev st).2.next = st.next := by
  unfold edgeCovered at h
  rw [Bool.and_eq_true] at h
  obtain ⟨h1, h2⟩ := h
  rw [List.all_eq_true] at h2
  obtain ⟨g1, g2, g3⟩ := getModuleId_covered h1
  have hdeps : ∀ q ∈ edge.dependencies.map Prod.snd,
      (assocLookup ((getModuleId st edge.path).2).assigned q).isSome = true := by
    rw [g2]
    exact fun q hq => h2 q hq
  obtain ⟨m1, m2, m3⟩ := mapIds_covered hdeps
  exact ⟨by unfold wrapModule; simp only; rw [m2, g2],
         by unfold wrapModule; simp only; rw [m3, g3]⟩

lemma transformModule_evolves (ext : Externals) (opts : TransformOptions)
    (edge : DependencyEdge) (de : List (String × DependencyEdge))
    (st : IdFactory) : Evolves st (transformModule ext opts edge de st).2 := by
  unfold transformModule
  cases hmr : (if opts.minify
      then ext.minifyModule edge.path (wrapModule ext edge opts.dev st).1
             edge.output.map
      else Except.ok ((wrapModule ext edge opts.dev st).1, edge.output.map)) with
  | error e => exact wrapModule_evolves ext edge opts.dev st
  | ok cm =>
      exact evolves_trans (wrapModule_evolves ext edge opts.dev st)
        (getModuleId_evolves _ _)

lemma transformModule_ok {ext : Externals} {opts : TransformOptions}
    {edge : DependencyEdge} {de : List (String × DependencyEdge)}
    {st st' : IdFactory} {pr : Nat × Option DeltaEntry}
    (h : transformModule ext opts edge de st = (Except.ok pr, st')) :
    assocLookup st'.assigned edge.path = some pr.1 ∧ PairOk pr := by
  unfold transformModule at h
  cases hmr : (if opts.minify
      then ext.minifyModule edge.path (wrapModule ext edge opts.dev st).1
             edge.output.map
      else Except.ok ((wrapModule ext edge opts.dev st).1, edge.output.map)) with
  | error e =>
      rw [hmr] at h
      simp at h
  | ok cm =>
      rw [hmr] at h
      simp only [Prod.mk.injEq] at h
      obtain ⟨hl, hr⟩ := h
      injection hl with hl
      subst hl
      subst hr
      refine ⟨getModuleId_lookup_self _ _, ?_⟩
      intro e he
      simp only at he
      injection he with he
      rw [← he]

lemma transformModule_covered {st : IdFactory} {edge : DependencyEdge}
    (ext : Externals) (opts : TransformOptions)
    (de : List (String × DependencyEdge)) (h : edgeCovered st edge = true) :
    (transformModule ext opts edge de st).2.assigned = st.assigned ∧
      (transformModule ext opts edge de st).2.next = st.next ∧
      ∀ pr, (transformModule ext opts edge de st).1 = Except.ok pr →
        pr.1 = (assocLookup st.assigned edge.path).getD 0 := by
  obtain ⟨w1, w2⟩ := wrapModule_covered ext opts.dev h
  have hown : (assocLookup (wrapModule ext edge opts.dev st).2.assigned
      edge.path).isSome = true := by
    rw [w1]
    have h' := h
    unfold edgeCovered at h'
    rw [Bool.and_eq_true] at h'
    exact h'.1
  obtain ⟨g1, g2, g3⟩ := getModuleId_covered hown
  unfold transformModule
  cases hmr : (if opts.minify
      then ext.minifyModule edge.path (wrapModule ext edge opts.dev st).1
             edge.output.map
      else Except.ok ((wrapModule ext edge opts.dev st).1, edge.output.map)) with
  | error e =>
      refine ⟨w1, w2, ?_⟩
      intro pr hpr
      simp at hpr
  | ok cm =>
      refine ⟨by simp only; rw [g2, w1], by simp only; rw [g3, w2], ?_⟩
      intro pr hpr
      simp only at hpr
      injection hpr with hpr
      rw [← hpr]
      simp only [g1, w1]

lemma transformModulesList_cons (ext : Externals) (opts : TransformOptions)
    (m : DependencyEdge) (rest : List DependencyEdge)
    (de : List (String × DependencyEdge)) (st : IdFactory) :
    transformModulesList ext opts (m :: rest) de st =
      match transformModule ext opts m de st with
      | (Except.error e, st₁) => (Except.error e, st₁)
      | (Except.ok pr, st₁) =>
          match transformModulesList ext opts rest de st₁ with
          | (Except.error e, st₂) => (Except.error e, st₂)
          | (Except.ok prs, st₂) => (Except.ok (pr :: prs), st₂) :=
  rfl

lemma transformModulesList_evolves (ext : Externals) (opts : TransformOptions)
    (modules : List DependencyEdge) (de : List (String × DependencyEdge))
    (st : IdFactory) : Evolves st (transformModulesList ext opts modules de st).2 := by
  induction modules generalizing st with
  | nil => exact evolves_refl st
  | cons m rest ih =>
      rw [transformModulesList_cons]
      have h1 := transformModule_evolves ext opts m de st
      cases htm : transformModule ext opts m de st with
      | mk res st₁ =>
          rw [htm] at h1
          cases res with
          | error e => exact h1
          | ok pr =>
              dsimp only
              have h2 := ih st₁
              cases htl : transformModulesList ext opts rest de st₁ with
              | mk res₂ st₂ =>
                  rw [htl] at h2
                  cases res₂ with
                  | error e => exact evolves_trans h1 h2
                  | ok prs => exact evolves_trans h1 h2

lemma transformModulesList_ok {ext : Externals} {opts : TransformOptions}
    {modules : List DependencyEdge} {de : List (String × DependencyEdge)}
    {st st' : IdFactory} {prs : List (Nat × Option DeltaEntry)}
    (h : transformModulesList ext opts modules de st = (Except.ok prs, st')) :
    ∀ pr ∈ prs,
      (∃ e ∈ modules, assocLookup st'.assigned e.path = some pr.1) ∧ PairOk pr := by
  induction modules generalizing st prs with
  | nil =>
      unfold transformModulesList at h
      simp only [Prod.mk.injEq] at h
      obtain ⟨hl, _⟩ := h
      injection hl with hl
      subst hl
      simp
  | cons m rest ih =>
      rw [transformModulesList_cons] at h
      cases htm : transformModule ext opts m de st with
      | mk res st₁ =>
          rw [htm] at h
          cases res with
          | error e => simp at h
          | ok pr₀ =>
              dsimp only at h
              cases htl : transformModulesList ext opts rest de st₁ with
              | mk res₂ st₂ =>
                  rw [htl] at h
                  cases res₂ with
                  | error e => simp at h
                  | ok prs₂ =>
                      simp only [Prod.mk.injEq] at h
                      obtain ⟨hl, hr⟩ := h
                      injection hl with hl
                      subst hl
                      subst hr
                      intro pr hpr
                      rcases List.mem_cons.mp hpr with h1 | h2
                      · subst h1
                        obtain ⟨hlk, hok⟩ := transformModule_ok htm
                        have hev := transformModulesList_evolves ext opts rest de st₁
                        rw [htl] at hev
                        exact ⟨⟨m, List.mem_cons_self _ _, hev.1 _ _ hlk⟩, hok⟩
                      · obtain ⟨⟨e, he, hlk⟩, hok⟩ := ih htl pr h2
                        exact ⟨⟨e, List.mem_cons_of_mem _ he, hlk⟩, hok⟩

lemma transformModulesList_covered {ext : Externals} {opts : TransformOptions}
    {modules : List DependencyEdge} {de : List (String × DependencyEdge)}
    {st : IdFactory} (h : ∀ e ∈ modules, edgeCovered st e = true) :
    (transformModulesList ext opts modules de st).2.assigned = st.assigned ∧
      (transformModulesList ext opts modules de st).2.next = st.next ∧
      ∀ prs, (transformModulesList ext opts modules de st).1 = Except.ok prs →
        prs.map Prod.fst =
          modules.map (fun e => (assocLookup st.assigned e.path).getD 0) := by
  induction modules generalizing st with
  | nil =>
      unfold transformModulesList
      refine ⟨rfl, rfl, ?_⟩
      intro prs hprs
      injection hprs with hprs
      subst hprs
      simp
  | cons m rest ih =>
      have hm := h m (List.mem_cons_self _ _)
      obtain ⟨c1, c2, c3⟩ := transformModule_covered ext opts de hm
      rw [transformModulesList_cons]
      cases htm : transformModule ext opts m de st with
      | mk res st₁ =>
          rw [htm] at c1 c2 c3
          cases res with
          | error e =>
              refine ⟨c1, c2, ?_⟩
              intro prs hprs
              simp at hprs
          | ok pr₀ =>
              have hrest : ∀ e ∈ rest, edgeCovered st₁ e = true := by
                intro e he
                rw [edgeCovered_congr c1]
                exact h e (List.mem_cons_of_mem _ he)
              obtain ⟨r1, r2, r3⟩ := ih hrest
              dsimp only
              cases htl : transformModulesList ext opts rest de st₁ with
              | mk res₂ st₂ =>
                  rw [htl] at r1 r2 r3
                  cases res₂ with
                  | error e =>
                      refine ⟨by rw [r1, c1], by rw [r2, c2], ?_⟩
                      intro prs hprs
                      simp at hprs
                  | ok prs₂ =>
                      refine ⟨by rw [r1, c1], by rw [r2, c2], ?_⟩
                      intro prs hprs
                      simp only at hprs
                      injection hprs with hprs
                      subst hprs
                      simp only [List.map_cons]
                      rw [c3 pr₀ rfl, r3 prs₂ rfl, c1]

lemma transformModules_eq (ext : Externals) (opts : TransformOptions)
    (modules : List DependencyEdge) (de : List (String × DependencyEdge))
    (st : IdFactory) :
    transformModules ext opts modules de st =
      match transformModulesList ext opts modules de st with
      | (Except.error e, st₁) => (Except.error e, st₁)
      | (Except.ok prs, st₁) => (Except.ok (mapFromList prs), st₁) :=
  rfl

lemma transformModules_evolves (ext : Externals) (opts : TransformOptions)
    (modules : List DependencyEdge) (de : List (String × DependencyEdge))
    (st : IdFactory) : Evolves st (transformModules ext opts modules de st).2 := by
  rw [transformModules_eq]
  have h := transformModulesList_evolves ext opts modules de st
  cases htl : transformModulesList ext opts modules de st with
  | mk res st₁ =>
      rw [htl] at h
      cases res with
      | error e => exact h
      | ok prs => exact h

lemma mapSet_mem {α : Type} {m : List (Nat × α)} {k : Nat} {v : α}
    {pr : Nat × α} (h : pr ∈ mapSet m k v) : pr ∈ m ∨ pr = (k, v) := by
  unfold mapSet at h
  by_cases hk : k ∈ m.map Prod.fst
  · rw [if_pos hk] at h
    obtain ⟨pr₀, hpr₀, heq⟩ := List.mem_map.mp h
    by_cases h2 : pr₀.1 = k
    · rw [if_pos h2] at heq
      exact Or.inr heq.symm
    · rw [if_neg h2] at heq
      exact Or.inl (heq ▸ hpr₀)
  · rw [if_neg hk] at h
    rcases List.mem_append.mp h with h1 | h2
    · exact Or.inl h1
    · simp at h2
      exact Or.inr h2

lemma foldl_mapSet_mem {α : Type} {l : List (Nat × α)} {acc : List (Nat × α)}
    {pr : Nat × α}
    (h : pr ∈ l.foldl (fun m pr₀ => mapSet m pr₀.1 pr₀.2) acc) :
    pr ∈ acc ∨ pr ∈ l := by
  induction l generalizing acc with
  | nil => exact Or.inl h
  | cons pr₀ rest ih =>
      rw [List.foldl_cons] at h
      rcases ih h with h1 | h2
      · rcases mapSet_mem h1 with h3 | h4
        · exact Or.inl h3
        · exact Or.inr (by rw [h4]; exact List.mem_cons_self _ _)
      · exact Or.inr (List.mem_cons_of_mem _ h2)

lemma mapFromList_mem {α : Type} {l : List (Nat × α)} {pr : Nat × α}
    (h : pr ∈ mapFromList l) : pr ∈ l := by
  rcases foldl_mapSet_mem h with h1 | h2
  · simp at h1
  · exact h2

lemma setTombstones_cons (p : String) (rest : List String) (m : DeltaEntries)
    (st : IdFactory) :
    setTombstones (p :: rest) m st =
      setTombstones rest (mapSet m (getModuleId st p).1 none)
        ((getModuleId st p).2) :=
  rfl

lemma setTombstones_evolves (deleted : List String) (m : DeltaEntries)
    (st : IdFactory) : Evolves st (setTombstones deleted m st).2 := by
  induction deleted generalizing m st with
  | nil => exact evolves_refl st
  | cons p rest ih =>
      rw [setTombstones_cons]
      exact evolves_trans (getModuleId_evolves st p) (ih _ _)

lemma setTombstones_pairOk {deleted : List String} {m : DeltaEntries}
    {st : IdFactory} (hm : ∀ pr ∈ m, PairOk pr) :
    ∀ pr ∈ (setTombstones deleted m st).1, PairOk pr := by
  induction deleted generalizing m st with
  | nil => exact hm
  | cons p rest ih =>
      rw [setTombstones_cons]
      exact ih (mapSet_pairOk hm (fun e he => by simp at he))

lemma requireEntry_id (i : Nat) : (requireEntry i).id = i := rfl

lemma sourcemapEntry_id (url : String) (i : Nat) : (sourcemapEntry url i).id = i :=
  rfl

lemma appendRequires_pairOk (cfg : Config)
    (de : List (String × DependencyEdge)) (st : IdFactory) :
    ∀ pr ∈ appendRequires cfg de st, PairOk pr := by
  intro pr hpr
  have := mapFromList_mem hpr
  obtain ⟨i, _, heq⟩ := List.mem_map.mp this
  rw [← heq]
  intro e he
  simp only at he
  injection he with he
  rw [← he]
  rfl

lemma getAppend_pairOk (cfg : Config) (de : List (String × DependencyEdge))
    (st : IdFactory) : ∀ pr ∈ (getAppend cfg de st).1, PairOk pr := by
  unfold getAppend
  cases cfg.sourceMapUrl with
  | none => exact appendRequires_pairOk cfg de st
  | some url =>
      apply mapSet_pairOk (appendRequires_pairOk cfg de st)
      intro e he
      simp only at he
      injection he with he
      rw [← he]
      rfl

lemma getAppend_evolves (cfg : Config) (de : List (String × DependencyEdge))
    (st : IdFactory) : Evolves st (getAppend cfg de st).2 := by
  unfold getAppend
  cases cfg.sourceMapUrl with
  | none => exact mapIds_evolves st (appendPaths cfg de)
  | some url =>
      exact evolves_trans (mapIds_evolves st (appendPaths cfg de))
        (getModuleId_evolves _ _)

lemma createEdgesFromScripts_paths {ext : Externals} {opts : TransformOptions}
    {names : List String} {edges : List DependencyEdge}
    (h : createEdgesFromScripts ext opts names = Except.ok edges) :
    ∀ e ∈ edges, ∃ nm ∈ names, e.path = ext.polyfillPath nm := by
  induction names generalizing edges with
  | nil =>
      unfold createEdgesFromScripts at h
      injection h with h
      subst h
      simp
  | cons nm rest ih =>
      unfold createEdgesFromScripts at h
      cases hc : createEdgeFromScript ext (ext.polyfillPath nm) opts with
      | error e => rw [hc] at h; simp at h
      | ok edge =>
          rw [hc] at h
          dsimp only at h
          cases hr : createEdgesFromScripts ext opts rest with
          | error e => rw [hr] at h; simp at h
          | ok edges₂ =>
              rw [hr] at h
              injection h with h
              subst h
              intro e he
              rcases List.mem_cons.mp he with h1 | h2
              · subst h1
                refine ⟨nm, List.mem_cons_self _ _, ?_⟩
                unfold createEdgeFromScript at hc
                cases hread : ext.readModule (ext.polyfillPath nm) opts with
                | error er => rw [hread] at hc; simp at hc
                | ok r =>
                    rw [hread] at hc
                    injection hc with hc
                    rw [← hc]
              · obtain ⟨nm₂, hnm₂, hp⟩ := ih hr e h2
                exact ⟨nm₂, List.mem_cons_of_mem _ hnm₂, hp⟩

lemma getPrepend_ok_inv {ext : Externals} {cfg : Config}
    {opts : TransformOptions} {de : List (String × DependencyEdge)}
    {st st' : IdFactory} {pre : DeltaEntries}
    (h : getPrepend ext cfg opts de st = (Except.ok pre, st')) :
    ∃ edges transformed,
      createEdgesFromScripts ext opts (prependModuleNames cfg) =
        Except.ok edges ∧
      transformModules ext opts edges de ((getModuleId st "__prelude__").2) =
        (Except.ok transformed, st') ∧
      pre = mapFromList
        (((getModuleId st "__prelude__").1,
          some (getPrelude ext cfg (getModuleId st "__prelude__").1)) ::
          transformed) := by
  unfold getPrepend at h
  cases hc : createEdgesFromScripts ext opts (prependModuleNames cfg) with
  | error e => rw [hc] at h; simp at h
  | ok edges =>
      rw [hc] at h
      dsimp only at h
      cases htm : transformModules ext opts edges de
          ((getModuleId st "__prelude__").2) with
      | mk res st₁ =>
          rw [htm] at h
          cases res with
          | error e => simp at h
          | ok transformed =>
              simp only [Prod.mk.injEq] at h
              obtain ⟨hl, hr⟩ := h
              injection hl with hl
              subst hr
              exact ⟨edges, transformed, rfl, htm, hl.symm⟩

lemma getPrepend_evolves (ext : Externals) (cfg : Config)
    (opts : TransformOptions) (de : List (String × DependencyEdge))
    (st : IdFactory) : Evolves st (getPrepend ext cfg opts de st).2 := by
  unfold getPrepend
  cases hc : createEdgesFromScripts ext opts (prependModuleNames cfg) with
  | error e => exact getModuleId_evolves st "__prelude__"
  | ok edges =>
      dsimp only
      have h := transformModules_evolves ext opts edges de
        ((getModuleId st "__prelude__").2)
      cases htm : transformModules ext opts edges de
          ((getModuleId st "__prelude__").2) with
      | mk res st₁ =>
          rw [htm] at h
          cases res with
          | error e => exact evolves_trans (getModuleId_evolves st "__prelude__") h
          | ok transformed =>
              exact evolves_trans (getModuleId_evolves st "__prelude__") h

lemma getDeltaInner_ok_inv {ext : Externals} {cfg : Config} {rq : Bool}
    {idf : IdFactory} {last : Option String} {resp : DeltaTransformResponse}
    {idf' : IdFactory} {last' : Option String}
    (h : getDeltaInner ext cfg rq idf last = (Except.ok resp, idf', last')) :
    ∃ dr opts idf₁ prs idf₃,
      ext.calcDelta rq = Except.ok dr ∧
      ext.transformerOptions = Except.ok opts ∧
      (if dr.reset then getPrepend ext cfg opts ext.graph idf
       else (Except.ok [], idf)) = (Except.ok resp.pre, idf₁) ∧
      transformModules ext opts dr.modified ext.graph
        (primeModuleIds (dr.modified.map DependencyEdge.path) idf₁) =
        (Except.ok prs, idf₃) ∧
      resp.delta = (setTombstones dr.deleted prs idf₃).1 ∧
      resp.post = (if dr.reset then
          getAppend cfg ext.graph (setTombstones dr.deleted prs idf₃).2
        else ([], (setTombstones dr.deleted prs idf₃).2)).1 ∧
      idf' = (if dr.reset then
          getAppend cfg ext.graph (setTombstones dr.deleted prs idf₃).2
        else ([], (setTombstones dr.deleted prs idf₃).2)).2 ∧
      resp.reset = dr.reset ∧
      resp.id = bytesToHex (ext.randomBytes sequenceIdByteLen) ∧
      last' = some resp.id := by
  unfold getDeltaInner at h
  cases hcd : ext.calcDelta rq with
  | error e => rw [hcd] at h; simp at h
  | ok dr =>
      rw [hcd] at h
      dsimp only at h
      cases hto : ext.transformerOptions with
      | error e => rw [hto] at h; simp at h
      | ok opts =>
          rw [hto] at h
          dsimp only at h
          cases hpre : (if dr.reset then getPrepend ext cfg opts ext.graph idf
              else (Except.ok [], idf)) with
          | mk pres idf₁ =>
              rw [hpre] at h
              cases pres with
              | error e => simp at h
              | ok prependSources =>
                  dsimp only at h
                  cases htm : transformModules ext opts dr.modified ext.graph
                      (primeModuleIds (dr.modified.map DependencyEdge.path)
                        idf₁) with
                  | mk res idf₃ =>
                      rw [htm] at h
                      cases res with
                      | error e => simp at h
                      | ok prs =>
                          dsimp only at h
                          simp only [Prod.mk.injEq] at h
                          obtain ⟨h1, h2, h3⟩ := h
                          injection h1 with h1
                          subst h1
                          subst h2
                          subst h3
                          exact ⟨dr, opts, idf₁, prs, idf₃, rfl, rfl, hpre,
                            htm, rfl, rfl, rfl, rfl, rfl, rfl⟩

lemma getDeltaInner_error_inv {ext : Externals} {cfg : Config} {rq : Bool}
    {idf : IdFactory} {last : Option String} {e : String} {idf' : IdFactory}
    {last' : Option String}
    (h : getDeltaInner ext cfg rq idf last = (Except.error e, idf', last')) :
    last' = last := by
  unfold getDeltaInner at h
  cases hcd : ext.calcDelta rq with
  | error e₀ =>
      rw [hcd] at h
      simp only [Prod.mk.injEq] at h
      exact h.2.2.symm
  | ok dr =>
      rw [hcd] at h
      dsimp only at h
      cases hto : ext.transformerOptions with
      | error e₀ =>
          rw [hto] at h
          simp only [Prod.mk.injEq] at h
          exact h.2.2.symm
      | ok opts =>
          rw [hto] at h
          dsimp only at h
          cases hpre : (if dr.reset then getPrepend ext cfg opts ext.graph idf
              else (Except.ok [], idf)) with
          | mk pres idf₁ =>
              rw [hpre] at h
              cases pres with
              | error e₀ =>
                  simp only [Prod.mk.injEq] at h
                  exact h.2.2.symm
              | ok prependSources =>
                  dsimp only at h
                  cases htm : transformModules ext opts dr.modified ext.graph
                      (primeModuleIds (dr.modified.map DependencyEdge.path)
                        idf₁) with
                  | mk res idf₃ =>
                      rw [htm] at h
                      cases res with
                      | error e₀ =>
                          simp only [Prod.mk.injEq] at h
                          exact h.2.2.symm
                      | ok prs =>
                          dsimp only at h
                          simp only [Prod.mk.injEq] at h
                          exact absurd h.1 (by simp)

lemma getDelta_pending_none (ext : Externals) (cfg : Config)
    (sequenceId : Option String) (st : EngineState) :
    getDelta ext cfg sequenceId none st = ownBuildOutcome ext cfg sequenceId st :=
  rfl

lemma getDelta_pending_ok (ext : Externals) (cfg : Config)
    (sequenceId : Option String) (r : DeltaTransformResponse)
    (st : EngineState) :
    getDelta ext cfg sequenceId (some (Except.ok r)) st =
      ownBuildOutcome ext cfg sequenceId st :=
  rfl

lemma getDelta_pending_error (ext : Externals) (cfg : Config)
    (sequenceId : Option String) (e : String) (st : EngineState) :
    getDelta ext cfg sequenceId (some (Except.error e)) st =
      { result := Except.error e,
        state := { st with currentBuild := false },
        ranOwnBuild := false } :=
  rfl

lemma transformModules_ok_inv {ext : Externals} {opts : TransformOptions}
    {modules : List DependencyEdge} {de : List (String × DependencyEdge)}
    {st st' : IdFactory} {entries : DeltaEntries}
    (h : transformModules ext opts modules de st = (Except.ok entries, st')) :
    ∃ raw, transformModulesList ext opts modules de st = (Except.ok raw, st') ∧
      entries = mapFromList raw := by
  rw [transformModules_eq] at h
  cases htl : transformModulesList ext opts modules de st with
  | mk res st₁ =>
      rw [htl] at h
      cases res with
      | error e => simp at h
      | ok raw =>
          simp only [Prod.mk.injEq] at h
          obtain ⟨hl, hr⟩ := h
          injection hl with hl
          subst hr
          exact ⟨raw, rfl, hl.symm⟩

/-- Claim C1 counterexample: when the in-flight build's future resolves with a
failure, the second caller does NOT perform its own computation — it rethrows
the failure (`ranOwnBuild = false`), contradicting the claim that a failure of
the first in-flight build does not prevent the second caller's own
computation. -/
theorem claim_C1_cex :
    getDelta testExt testCfg none (some (Except.error "boom")) testState =
      { result := Except.error "boom",
        state := { testState with currentBuild := false },
        ranOwnBuild := false } :=
  rfl

/-- Claim C1 (amended): the second caller's own computation begins only after
the first caller's future resolves; when it resolved successfully (or nothing
is in flight) the caller performs its own full computation, but when it
resolved with a failure the caller rethrows that failure — its own computation
never starts and the stored last sequence id is untouched. -/
theorem claim_C1 (ext : Externals) (cfg : Config) (sequenceId : Option String)
    (st : EngineState)
    (pending : Option (Except String DeltaTransformResponse)) :
    ((pending = none ∨ ∃ r, pending = some (Except.ok r)) →
      (getDelta ext cfg sequenceId pending st).ranOwnBuild = true) ∧
    (∀ e, pending = some (Except.error e) →
      (getDelta ext cfg sequenceId pending st).result = Except.error e ∧
      (getDelta ext cfg sequenceId pending st).ranOwnBuild = false ∧
      (getDelta ext cfg sequenceId pending st).state.lastSequenceId =
        st.lastSequenceId) := by
  constructor
  · rintro (h | ⟨r, h⟩) <;> subst h <;> rfl
  · intro e h
    subst h
    exact ⟨rfl, rfl, rfl⟩

/-- Witness for claim C1's theorem on concrete inputs: with no build in flight
the caller runs its own computation; with a rejected build in flight it fails
with that error without running its own computation. -/
theorem claim_C1_witness :
    ((getDelta testExt testCfg none none testState).ranOwnBuild = true) ∧
    ((getDelta testExt testCfg none (some (Except.error "x"))
        testState).result = Except.error "x" ∧
      (getDelta testExt testCfg none (some (Except.error "x"))
          testState).ranOwnBuild = false ∧
      (getDelta testExt testCfg none (some (Except.error "x"))
          testState).state.lastSequenceId = testState.lastSequenceId) :=
  ⟨(claim_C1 testExt testCfg none testState none).1 (Or.inl rfl),
   (claim_C1 testExt testCfg none testState (some (Except.error "x"))).2 "x" rfl⟩

/-- Claim C2 counterexample: the minted sequence id is the hex encoding of
`crypto.randomBytes(8)` — 8 random bytes, i.e. 64 bits of entropy, strictly
less than the 128 bits the claim requires; the concrete successful run's id is
accordingly 16 hex characters long. -/
theorem claim_C2_cex :
    sequenceIdByteLen = 8 ∧ 8 * sequenceIdByteLen = 64 ∧
      ¬ (128 ≤ 8 * sequenceIdByteLen) ∧ testResp.id.length = 16 :=
  ⟨rfl, rfl, by decide, by decide⟩

/-- Claim C2 (amended): every successful `getDelta` computation mints its
sequence id as a fresh random token of 64 bits of entropy (the hex encoding of
8 random bytes), a function of the random source alone — not derived from
content hashing — and stores it as the new last sequence id. -/
theorem claim_C2 {ext : Externals} {cfg : Config} {rq : Bool}
    {idf : IdFactory} {last : Option String} {resp : DeltaTransformResponse}
    {idf' : IdFactory} {last' : Option String}
    (h : getDeltaInner ext cfg rq idf last = (Except.ok resp, idf', last')) :
    resp.id = bytesToHex (ext.randomBytes sequenceIdByteLen) ∧
      sequenceIdByteLen = 8 ∧ last' = some resp.id := by
  obtain ⟨dr, opts, idf₁, prs, idf₃, _, _, _, _, _, _, _, _, h9, h10⟩ :=
    getDeltaInner_ok_inv h
  exact ⟨h9, rfl, h10⟩

/-- Witness for claim C2's amended theorem on the concrete successful run. -/
theorem claim_C2_witness :
    getDeltaInner testExt testCfg false testIdf none =
      (Except.ok testResp, testRun.state.idFactory,
        testRun.state.lastSequenceId) ∧
    (testResp.id = bytesToHex (testExt.randomBytes sequenceIdByteLen) ∧
      sequenceIdByteLen = 8 ∧
      testRun.state.lastSequenceId = some testResp.id) :=
  ⟨by decide,
   @claim_C2 testExt testCfg false testIdf none testResp
     testRun.state.idFactory testRun.state.lastSequenceId (by decide)⟩

/-- Claim C4: a reset is requested exactly when a last sequence id exists and
the caller's sequence id differs from it (never before the first successful
build), and the `reset` placed in the response is the authoritative flag
returned by the graph-diff service, not the caller-derived request. -/
theorem claim_C4 :
    (∀ (last S : Option String), (∀ t, last = some t → t ≠ "") →
      (resetRequested last S = true ↔ last.isSome = true ∧ S ≠ last)) ∧
    (∀ (ext : Externals) (cfg : Config) (sequenceId : Option String)
      (pending : Option (Except String DeltaTransformResponse))
      (st : EngineState) (resp : DeltaTransformResponse),
      (getDelta ext cfg sequenceId pending st).result = Except.ok resp →
      ∃ dr, ext.calcDelta (resetRequested st.lastSequenceId sequenceId) =
          Except.ok dr ∧ resp.reset = dr.reset) := by
  constructor
  · intro last S hval
    cases last with
    | none => simp [resetRequested, jsTruthyStr]
    | some t =>
        have ht : t ≠ "" := hval t rfl
        simp [resetRequested, jsTruthyStr, ht]
  · intro ext cfg sequenceId pending st resp h
    have hrun : ∀ (h' : (ownBuildOutcome ext cfg sequenceId st).result =
        Except.ok resp),
        ∃ dr, ext.calcDelta (resetRequested st.lastSequenceId sequenceId) =
          Except.ok dr ∧ resp.reset = dr.reset := by
      intro h'
      have hx : getDeltaInner ext cfg
          (resetRequested st.lastSequenceId sequenceId) st.idFactory
          st.lastSequenceId =
          (Except.ok resp,
           (getDeltaInner ext cfg (resetRequested st.lastSequenceId sequenceId)
              st.idFactory st.lastSequenceId).2.1,
           (getDeltaInner ext cfg (resetRequested st.lastSequenceId sequenceId)
              st.idFactory st.lastSequenceId).2.2) := by
        rw [← h']
        rfl
      obtain ⟨dr, opts, idf₁, prs, idf₃, hcd, _, _, _, _, _, _, h8, _, _⟩ :=
        getDeltaInner_ok_inv hx
      exact ⟨dr, hcd, h8⟩
    rcases pending with _ | r
    · rw [getDelta_pending_none] at h
      exact hrun h
    · cases r with
      | error e =>
          rw [getDelta_pending_error] at h
          simp at h
      | ok rr =>
          rw [getDelta_pending_ok] at h
          exact hrun h

/-- Witness for claim C4's theorem on concrete inputs. -/
theorem claim_C4_witness :
    ((∀ t, (some "ab" : Option String) = some t → t ≠ "") ∧
      (resetRequested (some "ab") none = true ↔
        (some "ab" : Option String).isSome = true ∧
          (none : Option String) ≠ some "ab")) ∧
    ((getDelta testExt testCfg none none testState).result =
        Except.ok testResp ∧
      ∃ dr, testExt.calcDelta
          (resetRequested testState.lastSequenceId none) = Except.ok dr ∧
        testResp.reset = dr.reset) :=
  ⟨⟨fun t ht => by cases ht; decide,
    claim_C4.1 (some "ab") none (fun t ht => by cases ht; decide)⟩,
   ⟨by decide,
    claim_C4.2 testExt testCfg none none testState testResp (by decide)⟩⟩

/-- Claim C5: if the diff request, id priming, or any entry build inside a
`getDelta` call fails, the whole call fails, the in-flight gate is cleared (so
later callers are not deadlocked), and the stored last sequence id is left
unchanged. -/
theorem claim_C5 (ext : Externals) (cfg : Config) (sequenceId : Option String)
    (pending : Option (Except String DeltaTransformResponse))
    (st : EngineState) (e : String)
    (h : (getDelta ext cfg sequenceId pending st).result = Except.error e) :
    (getDelta ext cfg sequenceId pending st).state.currentBuild = false ∧
      (getDelta ext cfg sequenceId pending st).state.lastSequenceId =
        st.lastSequenceId := by
  have hrun : ∀ (h' : (ownBuildOutcome ext cfg sequenceId st).result =
      Except.error e),
      (ownBuildOutcome ext cfg sequenceId st).state.currentBuild = false ∧
        (ownBuildOutcome ext cfg sequenceId st).state.lastSequenceId =
          st.lastSequenceId := by
    intro h'
    refine ⟨rfl, ?_⟩
    have hx : getDeltaInner ext cfg
        (resetRequested st.lastSequenceId sequenceId) st.idFactory
        st.lastSequenceId =
        (Except.error e,
         (getDeltaInner ext cfg (resetRequested st.lastSequenceId sequenceId)
            st.idFactory st.lastSequenceId).2.1,
         (getDeltaInner ext cfg (resetRequested st.lastSequenceId sequenceId)
            st.idFactory st.lastSequenceId).2.2) := by
      rw [← h']
      rfl
    exact getDeltaInner_error_inv hx
  rcases pending with _ | r
  · rw [getDelta_pending_none] at h ⊢
    exact hrun h
  · cases r with
    | error e₀ =>
        rw [getDelta_pending_error] at h ⊢
        exact ⟨rfl, rfl⟩
    | ok rr =>
        rw [getDelta_pending_ok] at h ⊢
        exact hrun h

/-- Witness for claim C5's theorem: a failing diff service on concrete inputs
fails the call, clears the gate and leaves the last sequence id unchanged. -/
theorem claim_C5_witness :
    (getDelta failExt testCfg none none testState).result =
      Except.error "diff failure" ∧
    ((getDelta failExt testCfg none none testState).state.currentBuild =
        false ∧
      (getDelta failExt testCfg none none testState).state.lastSequenceId =
        testState.lastSequenceId) :=
  ⟨by decide,
   claim_C5 failExt testCfg none none testState "diff failure" (by decide)⟩

/-- Claim C10: in every successful response, every non-tombstone entry stored
in the `pre`, `post` or `delta` mapping carries an `id` field equal to the
`ModuleId` under which it is keyed. -/
theorem claim_C10 {ext : Externals} {cfg : Config} {rq : Bool}
    {idf : IdFactory} {last : Option String} {resp : DeltaTransformResponse}
    {idf' : IdFactory} {last' : Option String}
    (h : getDeltaInner ext cfg rq idf last = (Except.ok resp, idf', last')) :
    ∀ pr ∈ resp.pre ++ resp.post ++ resp.delta, PairOk pr := by
  obtain ⟨dr, opts, idf₁, prs, idf₃, hcd, hto, hpre, htm, hdelta, hpost, _,
    hreset, _, _⟩ := getDeltaInner_ok_inv h
  obtain ⟨raw, hraw, hprsEq⟩ := transformModules_ok_inv htm
  have hrawOk : ∀ pr ∈ raw, PairOk pr := fun pr hpr =>
    (transformModulesList_ok hraw pr hpr).2
  have hprsOk : ∀ pr ∈ prs, PairOk pr := by
    rw [hprsEq]
    exact mapFromList_pairOk hrawOk
  have hdeltaOk : ∀ pr ∈ resp.delta, PairOk pr := by
    rw [hdelta]
    exact setTombstones_pairOk hprsOk
  have hpreOk : ∀ pr ∈ resp.pre, PairOk pr := by
    cases hr : dr.reset with
    | false =>
        rw [hr] at hpre
        simp only [if_neg Bool.false_ne_true, Prod.mk.injEq] at hpre
        have : resp.pre = [] := by
          have := hpre.1
          injection this with this
          exact this.symm
        rw [this]
        simp
    | true =>
        rw [hr] at hpre
        simp only [if_pos rfl] at hpre
        obtain ⟨edges, transformed, hedges, htr, hpreEq⟩ :=
          getPrepend_ok_inv hpre
        rw [hpreEq]
        apply mapFromList_pairOk
        intro pr hpr
        rcases List.mem_cons.mp hpr with h1 | h2
        · rw [h1]
          intro en hen
          simp only at hen
          injection hen with hen
          rw [← hen]
          rfl
        · obtain ⟨raw₂, hraw₂, htrEq⟩ := transformModules_ok_inv htr
          rw [htrEq] at h2
          exact (transformModulesList_ok hraw₂ pr (mapFromList_mem h2)).2
  have hpostOk : ∀ pr ∈ resp.post, PairOk pr := by
    cases hr : dr.reset with
    | false =>
        rw [hr] at hpost
        simp only [if_neg Bool.false_ne_true] at hpost
        rw [hpost]
        simp
    | true =>
        rw [hr] at hpost
        simp only [if_pos rfl] at hpost
        rw [hpost]
        exact getAppend_pairOk cfg ext.graph _
  intro pr hpr
  rcases List.mem_append.mp hpr with h1 | h2
  · rcases List.mem_append.mp h1 with h3 | h4
    · exact hpreOk pr h3
    · exact hpostOk pr h4
  · exact hdeltaOk pr h2

/-- Witness for claim C10's theorem on the concrete successful run. -/
theorem claim_C10_witness :
    getDeltaInner testExt testCfg false testIdf none =
      (Except.ok testResp, testRun.state.idFactory,
        testRun.state.lastSequenceId) ∧
    ∀ pr ∈ testResp.pre ++ testResp.post ++ testResp.delta, PairOk pr :=
  ⟨by decide,
   @claim_C10 testExt testCfg false testIdf none testResp
     testRun.state.idFactory testRun.state.lastSequenceId (by decide)⟩

/-- Claim C3: in every response, if `reset` is false then `pre` and `post` are
both empty; if `reset` is true then they are freshly computed and `pre` starts
with the prelude entry, keyed by the prelude's module id. -/
theorem claim_C3 {ext : Externals} {cfg : Config} {rq : Bool}
    {idf : IdFactory} {last : Option String} {resp : DeltaTransformResponse}
    {idf' : IdFactory} {last' : Option String}
    (hwf : idf.WF)
    (hp : ∀ nm ∈ prependModuleNames cfg, ext.polyfillPath nm ≠ "__prelude__")
    (h : getDeltaInner ext cfg rq idf last = (Except.ok resp, idf', last')) :
    (resp.reset = false → resp.pre = [] ∧ resp.post = []) ∧
    (resp.reset = true →
      resp.pre.head? = some ((getModuleId idf "__prelude__").1,
        some (getPrelude ext cfg (getModuleId idf "__prelude__").1))) := by
  obtain ⟨dr, opts, idf₁, prs, idf₃, hcd, hto, hpre, htm, hdelta, hpost, _,
    hreset, _, _⟩ := getDeltaInner_ok_inv h
  cases hr : dr.reset with
  | false =>
      rw [hr] at hpre hpost
      simp only [if_neg Bool.false_ne_true, Prod.mk.injEq] at hpre hpost
      constructor
      · intro _
        have h1 : resp.pre = [] := by
          have := hpre.1
          injection this with this
          exact this.symm
        have h2 : resp.post = [] := by simpa using hpost
        exact ⟨h1, h2⟩
      · intro htrue
        exact absurd htrue (by simp [hreset, hr])
  | true =>
      rw [hr] at hpre hpost
      simp only [if_pos rfl] at hpre hpost
      constructor
      · intro hfalse
        exact absurd hfalse (by simp [hreset, hr])
      · intro _
        obtain ⟨edges, transformed, hedges, htr, hpreEq⟩ :=
          getPrepend_ok_inv hpre
        rw [hpreEq]
        apply mapFromList_cons_head
        intro pr hpr
        obtain ⟨raw₂, hraw₂, htrEq⟩ := transformModules_ok_inv htr
        rw [htrEq] at hpr
        obtain ⟨⟨e, he, hlk⟩, _⟩ :=
          transformModulesList_ok hraw₂ pr (mapFromList_mem hpr)
        obtain ⟨nm, hnm, hpath⟩ := createEdgesFromScripts_paths hedges e he
        have hne : e.path ≠ "__prelude__" := by
          rw [hpath]
          exact hp nm hnm
        have hev : Evolves ((getModuleId idf "__prelude__").2) idf₁ := by
          have hev₀ := transformModulesList_evolves ext opts edges ext.graph
            ((getModuleId idf "__prelude__").2)
          rw [hraw₂] at hev₀
          exact hev₀
        have hplk : assocLookup idf₁.assigned "__prelude__" =
            some (getModuleId idf "__prelude__").1 :=
          hev.1 _ _ (getModuleId_lookup_self idf "__prelude__")
        have hwf₁ : idf₁.WF := hev.2.1 (getModuleId_wf _ hwf)
        intro heq
        exact hne (wf_lookup_inj hwf₁ (heq ▸ hlk) hplk)

/-- Witness for claim C3's theorem on the concrete successful reset run. -/
theorem claim_C3_witness :
    (testIdf.WF ∧
      (∀ nm ∈ prependModuleNames testCfg,
        testExt.polyfillPath nm ≠ "__prelude__") ∧
      getDeltaInner testExt testCfg false testIdf none =
        (Except.ok testResp, testRun.state.idFactory,
          testRun.state.lastSequenceId)) ∧
    ((testResp.reset = false → testResp.pre = [] ∧ testResp.post = []) ∧
      (testResp.reset = true →
        testResp.pre.head? = some ((getModuleId testIdf "__prelude__").1,
          some (getPrelude testExt testCfg
            (getModuleId testIdf "__prelude__").1)))) :=
  ⟨⟨by simp [IdFactory.WF, testIdf], by decide, by decide⟩,
   @claim_C3 testExt testCfg false testIdf none testResp
     testRun.state.idFactory testRun.state.lastSequenceId
     (by simp [IdFactory.WF, testIdf]) (by decide) (by decide)⟩

/-- Claim C6: in every reset response the first key of the `pre` mapping's
insertion order is the prelude's ModuleId regardless of how many polyfills are
configured, and the prelude's ModuleId is the first id requested inside the
prepend computation, before any polyfill or module-system id (witnessed by the
allocator's ghost request trace). -/
theorem claim_C6 (ext : Externals) (cfg : Config) (opts : TransformOptions)
    (de : List (String × DependencyEdge)) (st : IdFactory) :
    (∃ rest, ((getPrepend ext cfg opts de st).2).requests =
      st.requests ++ "__prelude__" :: rest) ∧
    (∀ pre, (getPrepend ext cfg opts de st).1 = Except.ok pre →
      (pre.head?).map Prod.fst = some (getModuleId st "__prelude__").1) := by
  constructor
  · unfold getPrepend
    cases hc : createEdgesFromScripts ext opts (prependModuleNames cfg) with
    | error e =>
        refine ⟨[], ?_⟩
        simpa using getModuleId_requests st "__prelude__"
    | ok edges =>
        dsimp only
        have hev := transformModules_evolves ext opts edges de
          ((getModuleId st "__prelude__").2)
        cases htm : transformModules ext opts edges de
            ((getModuleId st "__prelude__").2) with
        | mk res st₁ =>
            rw [htm] at hev
            obtain ⟨tail, htail⟩ := hev.2.2.2
            have hmid : ((getModuleId st "__prelude__").2).requests =
                st.requests ++ ["__prelude__"] :=
              getModuleId_requests st "__prelude__"
            cases res with
            | error e =>
                refine ⟨tail, ?_⟩
                dsimp only
                rw [htail, hmid]
                simp
            | ok transformed =>
                refine ⟨tail, ?_⟩
                dsimp only
                rw [htail, hmid]
                simp
  · intro pre h
    obtain ⟨edges, transformed, _, _, hpreEq⟩ := getPrepend_ok_inv
      (show getPrepend ext cfg opts de st =
        (Except.ok pre, (getPrepend ext cfg opts de st).2) by rw [← h])
    rw [hpreEq]
    exact mapFromList_cons_head_key _ _ _

/-- Witness for claim C6's theorem on the concrete prepend run (one module
system script and two polyfills configured). -/
theorem claim_C6_witness :
    testPrependRun.1 = Except.ok testPre ∧
      (testPre.head?).map Prod.fst =
        some (getModuleId testIdf "__prelude__").1 :=
  ⟨by decide,
   (claim_C6 testExt testCfg testOpts testGraph testIdf).2 testPre (by decide)⟩

lemma mapIds_length (st : IdFactory) (paths : List String) :
    (mapIds st paths).1.length = paths.length := by
  induction paths generalizing st with
  | nil => rfl
  | cons p rest ih =>
      simp only [mapIds, List.length_cons]
      rw [ih]

/-- Claim C7: for every reset response, the `post` mapping contains, in order,
one require entry per configured run-before-main name present in the snapshot
(names absent from the snapshot silently skipped, no possibility of error),
then one require entry for the entry file appended last, then — when a
source-map URL is configured — one comment-tagged sourceMappingURL entry. -/
theorem claim_C7 (cfg : Config) (de : List (String × DependencyEdge))
    (st : IdFactory) (hwf : st.WF)
    (hnd : ((cfg.runBeforeMainModule ++ [cfg.entryFile]) ++
      ["/sourcemap.js"]).Nodup)
    (hentry : hasKey de cfg.entryFile = true) :
    appendPaths cfg de =
      cfg.runBeforeMainModule.filter (fun p => hasKey de p) ++
        [cfg.entryFile] ∧
    (mapIds st (appendPaths cfg de)).1.length = (appendPaths cfg de).length ∧
    (getAppend cfg de st).1 =
      (mapIds st (appendPaths cfg de)).1.map
        (fun i => (i, some (requireEntry i))) ++
      (match cfg.sourceMapUrl with
       | some url =>
           [((getModuleId (mapIds st (appendPaths cfg de)).2
               "/sourcemap.js").1,
             some (sourcemapEntry url
               (getModuleId (mapIds st (appendPaths cfg de)).2
                 "/sourcemap.js").1))]
       | none => []) := by
  have hpathsNd : (appendPaths cfg de).Nodup :=
    (List.Nodup.of_append_left hnd).filter _
  have hidsNd : (mapIds st (appendPaths cfg de)).1.Nodup :=
    mapIds_nodup hwf hpathsNd
  have hkeys : ((mapIds st (appendPaths cfg de)).1.map
      (fun i => (i, some (requireEntry i)))).map Prod.fst =
      (mapIds st (appendPaths cfg de)).1 := by
    rw [List.map_map]
    have hcomp : (Prod.fst ∘ fun i : Nat => (i, some (requireEntry i))) = id :=
      rfl
    rw [hcomp, List.map_id]
  have hreq : appendRequires cfg de st =
      (mapIds st (appendPaths cfg de)).1.map
        (fun i => (i, some (requireEntry i))) := by
    unfold appendRequires
    apply mapFromList_self
    rw [hkeys]
    exact hidsNd
  refine ⟨?_, mapIds_length st _, ?_⟩
  · unfold appendPaths
    rw [List.filter_append]
    simp [hentry]
  · cases hsm : cfg.sourceMapUrl with
    | none =>
        unfold getAppend
        rw [hsm]
        dsimp only
        rw [hreq]
        simp
    | some url =>
        unfold getAppend
        rw [hsm]
        dsimp only
        have hwf₁ : (mapIds st (appendPaths cfg de)).2.WF :=
          (mapIds_evolves st (appendPaths cfg de)).2.1 hwf
        have hnotin : (getModuleId (mapIds st (appendPaths cfg de)).2
            "/sourcemap.js").1 ∉ (mapIds st (appendPaths cfg de)).1 := by
          intro hmem
          obtain ⟨q, hq, hlq⟩ := mapIds_lookup _ hmem
          have hqne : q ≠ "/sourcemap.js" := by
            intro heq
            have hdisj := List.disjoint_of_nodup_append hnd
            exact hdisj (by
              have : q ∈ (cfg.runBeforeMainModule ++ [cfg.entryFile]) := by
                have := List.mem_filter.mp (by
                  have hq' := hq
                  unfold appendPaths at hq'
                  exact hq')
                exact this.1
              exact this) (by rw [heq]; simp)
          cases hlksm : assocLookup
              ((mapIds st (appendPaths cfg de)).2).assigned "/sourcemap.js" with
          | some j =>
              rw [getModuleId_of_some hlksm] at hlq
              exact hqne (wf_lookup_inj hwf₁ hlq hlksm)
          | none =>
              rw [getModuleId_of_none hlksm] at hlq
              exact absurd (wf_lookup_lt hwf₁ hlq) (lt_irrefl _)
        rw [hreq]
        rw [mapSet_of_not_mem (by rw [hkeys]; exact hnotin)]

/-- Witness for claim C7's theorem on the concrete fixtures (one present
run-before-main name, one absent name, source-map URL configured). -/
theorem claim_C7_witness :
    (testIdf.WF ∧
      ((testCfg.runBeforeMainModule ++ [testCfg.entryFile]) ++
        ["/sourcemap.js"]).Nodup ∧
      hasKey testGraph testCfg.entryFile = true) ∧
    (appendPaths testCfg testGraph =
      testCfg.runBeforeMainModule.filter (fun p => hasKey testGraph p) ++
        [testCfg.entryFile] ∧
    (mapIds testIdf (appendPaths testCfg testGraph)).1.length =
      (appendPaths testCfg testGraph).length ∧
    (getAppend testCfg testGraph testIdf).1 =
      (mapIds testIdf (appendPaths testCfg testGraph)).1.map
        (fun i => (i, some (requireEntry i))) ++
      (match testCfg.sourceMapUrl with
       | some url =>
           [((getModuleId (mapIds testIdf (appendPaths testCfg testGraph)).2
               "/sourcemap.js").1,
             some (sourcemapEntry url
               (getModuleId (mapIds testIdf
                 (appendPaths testCfg testGraph)).2 "/sourcemap.js").1))]
       | none => [])) :=
  ⟨⟨by simp [IdFactory.WF, testIdf], by decide, by decide⟩,
   claim_C7 testCfg testGraph testIdf (by simp [IdFactory.WF, testIdf])
     (by decide) (by decide)⟩

/-- Claim C9: within one `_getDelta` computation, ids are assigned to every
path in the modified set, in the diff service's enumeration order (the ghost
request trace), before any delta entry is built; once the primed allocator
covers every modified edge's own path and dependency targets, the build phase
performs pure lookups — for any reordering of the per-edge builds the
allocator's assignment is unchanged and each edge is keyed by the id the
priming determined, so two isolated runs fed identical diffs assign identical
ids to identical paths in identical order. -/
theorem claim_C9 (ext : Externals) (opts : TransformOptions)
    (de : List (String × DependencyEdge)) (st : IdFactory)
    (modules modules' : List DependencyEdge)
    (hperm : modules'.Perm modules)
    (hcov : ∀ e ∈ modules,
      edgeCovered (primeModuleIds (modules.map DependencyEdge.path) st) e =
        true) :
    (∀ p ∈ modules.map DependencyEdge.path,
      (assocLookup (primeModuleIds (modules.map DependencyEdge.path)
        st).assigned p).isSome = true) ∧
    (primeModuleIds (modules.map DependencyEdge.path) st).requests =
      st.requests ++ modules.map DependencyEdge.path ∧
    ((transformModulesList ext opts modules' de
        (primeModuleIds (modules.map DependencyEdge.path) st)).2.assigned =
      (primeModuleIds (modules.map DependencyEdge.path) st).assigned ∧
     (transformModulesList ext opts modules' de
        (primeModuleIds (modules.map DependencyEdge.path) st)).2.next =
      (primeModuleIds (modules.map DependencyEdge.path) st).next ∧
     ∀ prs, (transformModulesList ext opts modules' de
        (primeModuleIds (modules.map DependencyEdge.path) st)).1 =
          Except.ok prs →
       prs.map Prod.fst = modules'.map (fun e =>
         (assocLookup (primeModuleIds (modules.map DependencyEdge.path)
           st).assigned e.path).getD 0)) := by
  refine ⟨fun p hp => primeModuleIds_covers p hp,
    primeModuleIds_requests _ _, ?_⟩
  exact transformModulesList_covered
    (fun e he => hcov e (hperm.mem_iff.mp he))

/-- Witness for claim C9's theorem: the two modified edges built in the
opposite order still key by the primed ids. -/
theorem claim_C9_witness :
    (([testEdgeB, testEdgeA] : List DependencyEdge).Perm
      [testEdgeA, testEdgeB] ∧
     ∀ e ∈ [testEdgeA, testEdgeB],
      edgeCovered (primeModuleIds ([testEdgeA, testEdgeB].map
        DependencyEdge.path) testIdf) e = true) ∧
    ((∀ p ∈ [testEdgeA, testEdgeB].map DependencyEdge.path,
      (assocLookup (primeModuleIds ([testEdgeA, testEdgeB].map
        DependencyEdge.path) testIdf).assigned p).isSome = true) ∧
    (primeModuleIds ([testEdgeA, testEdgeB].map DependencyEdge.path)
      testIdf).requests =
      testIdf.requests ++ [testEdgeA, testEdgeB].map DependencyEdge.path ∧
    ((transformModulesList testExt testOpts [testEdgeB, testEdgeA] testGraph
        (primeModuleIds ([testEdgeA, testEdgeB].map DependencyEdge.path)
          testIdf)).2.assigned =
      (primeModuleIds ([testEdgeA, testEdgeB].map DependencyEdge.path)
        testIdf).assigned ∧
     (transformModulesList testExt testOpts [testEdgeB, testEdgeA] testGraph
        (primeModuleIds ([testEdgeA, testEdgeB].map DependencyEdge.path)
          testIdf)).2.next =
      (primeModuleIds ([testEdgeA, testEdgeB].map DependencyEdge.path)
        testIdf).next ∧
     ∀ prs, (transformModulesList testExt testOpts [testEdgeB, testEdgeA]
        testGraph (primeModuleIds ([testEdgeA, testEdgeB].map
          DependencyEdge.path) testIdf)).1 = Except.ok prs →
       prs.map Prod.fst = [testEdgeB, testEdgeA].map (fun e =>
         (assocLookup (primeModuleIds ([testEdgeA, testEdgeB].map
           DependencyEdge.path) testIdf).assigned e.path).getD 0))) :=
  ⟨⟨List.Perm.swap testEdgeA testEdgeB [], by decide⟩,
   claim_C9 testExt testOpts testGraph testIdf [testEdgeA, testEdgeB]
     [testEdgeB, testEdgeA] (List.Perm.swap testEdgeA testEdgeB [])
     (by decide)⟩

lemma mem_keys_of_lookup {α : Type} {l : List (String × α)} {key : String}
    {v : α} (h : assocLookup l key = some v) : key ∈ l.map Prod.fst := by
  by_contra hc
  exact absurd (assocLookup_eq_none.mpr hc) (by simp [h])

lemma getDeps_succ (edges : List (String × DependencyEdge)) (fuel : Nat)
    (path : String) (deps : List String) :
    getDeps edges (fuel + 1) path deps =
      if path ∈ deps then deps
      else
        match assocLookup edges path with
        | none => deps
        | some edge =>
            (edge.dependencies.map Prod.snd).foldl
              (fun d q => getDeps edges fuel q d) (deps ++ [path]) :=
  rfl

lemma remainingKeys_length_le {edges : List (String × DependencyEdge)}
    {d₁ d₂ : List String} (h : ∀ x ∈ d₁, x ∈ d₂) :
    (remainingKeys edges d₂).length ≤ (remainingKeys edges d₁).length := by
  unfold remainingKeys
  apply List.Sublist.length_le
  apply List.monotone_filter_right
  intro a ha
  simp only [decide_eq_true_eq] at ha ⊢
  exact fun hmem => ha (h a hmem)

lemma remainingKeys_append_lt {edges : List (String × DependencyEdge)}
    {deps : List String} {path : String}
    (hk : path ∈ edges.map Prod.fst) (hd : path ∉ deps) :
    (remainingKeys edges (deps ++ [path])).length <
      (remainingKeys edges deps).length := by
  unfold remainingKeys
  have hsplit : (edges.map Prod.fst).dedup.filter
      (fun k => k ∉ deps ++ [path]) =
      ((edges.map Prod.fst).dedup.filter (fun k => k ∉ deps)).filter
        (fun k => k ≠ path) := by
    rw [List.filter_filter]
    apply List.filter_congr
    intro x _
    simp [List.mem_append, not_or, Bool.and_comm]
  rw [hsplit]
  have hpmem : path ∈ (edges.map Prod.fst).dedup.filter
      (fun k => k ∉ deps) :=
    List.mem_filter.mpr ⟨List.mem_dedup.mpr hk, by simp [hd]⟩
  calc (((edges.map Prod.fst).dedup.filter (fun k => k ∉ deps)).filter
        (fun k => k ≠ path)).length
      < ((edges.map Prod.fst).dedup.filter (fun k => k ∉ deps)).length := by
        apply List.length_filter_lt_length_iff_exists.mpr
        exact ⟨path, hpmem, by simp⟩

lemma getDeps_fold (edges : List (String × DependencyEdge)) (fuel : Nat)
    (IH : GetDepsSpec edges fuel) :
    ∀ (ts : List String) (deps₀ : List String),
      (remainingKeys edges deps₀).length < fuel →
      (∀ x ∈ deps₀, x ∈ ts.foldl (fun d q => getDeps edges fuel q d) deps₀) ∧
      (∀ x ∈ ts.foldl (fun d q => getDeps edges fuel q d) deps₀,
        x ∈ deps₀ ∨ (x ∈ edges.map Prod.fst ∧
          ∃ q ∈ ts, Relation.ReflTransGen (stepTo edges) q x)) ∧
      (deps₀.Nodup →
        (ts.foldl (fun d q => getDeps edges fuel q d) deps₀).Nodup) ∧
      (∀ q ∈ ts, q ∈ edges.map Prod.fst →
        q ∈ ts.foldl (fun d q => getDeps edges fuel q d) deps₀) ∧
      (∀ z ∈ ts.foldl (fun d q => getDeps edges fuel q d) deps₀, z ∉ deps₀ →
        ∀ t, stepTo edges z t → t ∈ edges.map Prod.fst →
          t ∈ ts.foldl (fun d q => getDeps edges fuel q d) deps₀) := by
  intro ts
  induction ts with
  | nil =>
      intro deps₀ h₀
      refine ⟨fun x hx => hx, fun x hx => Or.inl hx, id, by simp, ?_⟩
      intro z hz hnz
      exact absurd hz hnz
  | cons q rest ihrest =>
      intro deps₀ h₀
      rw [List.foldl_cons]
      obtain ⟨m1, m2, m3, m4, m5⟩ := IH deps₀ q h₀
      have h₁ : (remainingKeys edges (getDeps edges fuel q deps₀)).length <
          fuel :=
        lt_of_le_of_lt (remainingKeys_length_le m1) h₀
      obtain ⟨f1, f2, f3, f4, f5⟩ := ihrest (getDeps edges fuel q deps₀) h₁
      refine ⟨fun x hx => f1 x (m1 x hx), ?_, fun hnd => f3 (m3 hnd), ?_, ?_⟩
      · intro x hx
        rcases f2 x hx with h1 | ⟨hk, q', hq', hr⟩
        · rcases m2 x h1 with h2 | ⟨hk2, hr2⟩
          · exact Or.inl h2
          · exact Or.inr ⟨hk2, q, List.mem_cons_self _ _, hr2⟩
        · exact Or.inr ⟨hk, q', List.mem_cons_of_mem _ hq', hr⟩
      · intro q' hq' hk
        rcases List.mem_cons.mp hq' with h1 | h2
        · subst h1
          exact f1 q' (m4 hk)
        · exact f4 q' h2 hk
      · intro z hz hnz t hst htk
        by_cases hzD : z ∈ getDeps edges fuel q deps₀
        · exact f1 t (m5 z hzD hnz t hst htk)
        · exact f5 z hz hzD t hst htk

lemma getDeps_spec (edges : List (String × DependencyEdge)) :
    ∀ fuel, GetDepsSpec edges fuel := by
  intro fuel
  induction fuel with
  | zero =>
      intro deps path h
      exact absurd h (Nat.not_lt_zero _)
  | succ fuel ih =>
      intro deps path hfuel
      by_cases hmem : path ∈ deps
      · rw [getDeps_succ, if_pos hmem]
        refine ⟨fun x hx => hx, fun x hx => Or.inl hx, id, fun _ => hmem, ?_⟩
        intro z hz hnz
        exact absurd hz hnz
      · cases hlk : assocLookup edges path with
        | none =>
            rw [getDeps_succ, if_neg hmem, hlk]
            refine ⟨fun x hx => hx, fun x hx => Or.inl hx, id, ?_, ?_⟩
            · intro hk
              exact absurd hk (assocLookup_eq_none.mp hlk)
            · intro z hz hnz
              exact absurd hz hnz
        | some edge =>
            rw [getDeps_succ, if_neg hmem, hlk]
            dsimp only
            have hkpath : path ∈ edges.map Prod.fst := mem_keys_of_lookup hlk
            have hdec := remainingKeys_append_lt hkpath hmem
            have hlt : (remainingKeys edges (deps ++ [path])).length < fuel := by
              omega
            obtain ⟨f1, f2, f3, f4, f5⟩ := getDeps_fold edges fuel ih
              (edge.dependencies.map Prod.snd) (deps ++ [path]) hlt
            refine ⟨?_, ?_, ?_, ?_, ?_⟩
            · intro x hx
              exact f1 x (List.mem_append_left _ hx)
            · intro x hx
              rcases f2 x hx with h1 | ⟨hk, q, hq, hr⟩
              · rcases List.mem_append.mp h1 with h2 | h3
                · exact Or.inl h2
                · simp only [List.mem_singleton] at h3
                  subst h3
                  exact Or.inr ⟨hkpath, Relation.ReflTransGen.refl⟩
              · exact Or.inr ⟨hk,
                  Relation.ReflTransGen.head ⟨edge, hlk, hq⟩ hr⟩
            · intro hnd
              apply f3
              rw [List.nodup_append]
              refine ⟨hnd, List.nodup_singleton _, ?_⟩
              intro a ha hb
              simp only [List.mem_singleton] at hb
              subst hb
              exact hmem ha
            · intro _
              exact f1 path (List.mem_append_right _ (by simp))
            · intro z hz hnz t hst htk
              by_cases hzap : z ∈ deps ++ [path]
              · have hzp : z = path := by
                  rcases List.mem_append.mp hzap with h2 | h3
                  · exact absurd h2 hnz
                  · simpa using h3
                subst hzp
                obtain ⟨e', hlk', htmem⟩ := hst
                rw [hlk] at hlk'
                injection hlk' with hlk'
                subst hlk'
                exact f4 t htmem htk
              · exact f5 z hz hzap t hst htk

lemma startFuel_lt (edges : List (String × DependencyEdge)) :
    (remainingKeys edges ([] : List String)).length < edges.length + 1 := by
  unfold remainingKeys
  have h1 : (((edges.map Prod.fst).dedup).filter
      (fun k => k ∉ ([] : List String))).length ≤
      ((edges.map Prod.fst).dedup).length :=
    (List.filter_sublist _).length_le
  have h2 : ((edges.map Prod.fst).dedup).length ≤
      (edges.map Prod.fst).length :=
    (List.dedup_sublist _).length_le
  have h3 : (edges.map Prod.fst).length = edges.length := List.length_map _ _
  omega

lemma closedGraph_step {edges : List (String × DependencyEdge)}
    (hclosed : closedGraphB edges = true) {a b : String}
    (h : stepTo edges a b) : b ∈ edges.map Prod.fst := by
  obtain ⟨e, hlk, hb⟩ := h
  unfold closedGraphB at hclosed
  rw [List.all_eq_true] at hclosed
  have hm := hclosed _ (assocLookup_mem hlk)
  rw [List.all_eq_true] at hm
  obtain ⟨d, hd, hd2⟩ := List.mem_map.mp hb
  have hkey := hm d hd
  unfold hasKey at hkey
  rw [← hd2]
  cases hlk2 : assocLookup edges d.2 with
  | none => rw [hlk2] at hkey; simp at hkey
  | some e2 => exact mem_keys_of_lookup hlk2

lemma getDeps_complete (edges : List (String × DependencyEdge)) {p x : String}
    (hclosed : closedGraphB edges = true)
    (hr : Relation.ReflTransGen (stepTo edges) p x) :
    x = p ∨ x ∈ getDeps edges (edges.length + 1) p [] := by
  obtain ⟨m1, m2, m3, m4, m5⟩ :=
    getDeps_spec edges (edges.length + 1) [] p (startFuel_lt edges)
  induction hr with
  | refl => exact Or.inl rfl
  | tail hab hbc ihr =>
      rcases ihr with hb | hb
      · have hbc' := hb ▸ hbc
        have hpk : p ∈ edges.map Prod.fst := by
          obtain ⟨e, hlk, _⟩ := hbc'
          exact mem_keys_of_lookup hlk
        exact Or.inr (m5 p (m4 hpk) (by simp) _ hbc'
          (closedGraph_step hclosed hbc'))
      · exact Or.inr (m5 _ hb (by simp) _ hbc (closedGraph_step hclosed hbc))

/-- Claim C8: for every path `p` over a closed snapshot, the
transitive-dependencies query returns exactly the set of paths reachable from
`p` through the snapshot's dependency edges, excluding `p` itself; the
traversal is well-defined on cyclic graphs (a path already in the accumulator
is never re-expanded) and each reachable path appears exactly once (the result
list has no duplicates). -/
theorem claim_C8 (edges : List (String × DependencyEdge)) (p : String)
    (hclosed : closedGraphB edges = true) :
    (getDependencies edges p).Nodup ∧
    ∀ x, x ∈ getDependencies edges p ↔
      (Relation.ReflTransGen (stepTo edges) p x ∧ x ≠ p) := by
  obtain ⟨m1, m2, m3, m4, m5⟩ :=
    getDeps_spec edges (edges.length + 1) [] p (startFuel_lt edges)
  have hnd : (getDeps edges (edges.length + 1) p []).Nodup :=
    m3 List.nodup_nil
  constructor
  · exact hnd.erase _
  · intro x
    unfold getDependencies
    rw [List.Nodup.mem_erase_iff hnd]
    constructor
    · rintro ⟨hxp, hxR⟩
      rcases m2 x hxR with h1 | ⟨hk, hr⟩
      · simp at h1
      · exact ⟨hr, hxp⟩
    · rintro ⟨hr, hxp⟩
      rcases getDeps_complete edges hclosed hr with h1 | h2
      · exact absurd h1 hxp
      · exact ⟨hxp, h2⟩

/-- Witness for claim C8's theorem on a concrete two-node cyclic snapshot. -/
theorem claim_C8_witness :
    closedGraphB cycGraph = true ∧
    ((getDependencies cycGraph "a").Nodup ∧
      ∀ x, x ∈ getDependencies cycGraph "a" ↔
        (Relation.ReflTransGen (stepTo cycGraph) "a" x ∧ x ≠ "a")) :=
  ⟨by decide, claim_C8 cycGraph "a" (by decide)⟩

end MetroDelta
